import Mathlib

/-!
serial-proxy: a verification development

A shallow embedding of `serial.go` (the proxy engine of voyzark/serial-proxy)
and theorems about it.

* Port events (`SerialData`), the control monitor (`GetControlStatus`), the
  data reader (`ReadBytes`), the applier (`HandleSerialData`, `WriteBytes`)
  and the router (`MainLoop`) are embedded as functions over explicit traces:
  every value sent on a channel and every call made on a port handle is
  recorded in the order the goroutine performs it.
* `ParseSerialOptions` is embedded together with a small backtracking
  matcher for the regular expression it compiles.
* The shutdown protocol is embedded as an interleaving step relation over the
  goroutines of one run.

Definitions come first, theorems after them.
-/

namespace SerialProxy

/-! ## Data model (serial.go, lines 19-37) -/

/-- A byte of payload. The bridge never inspects payload bytes. -/
abbrev Byte := Nat

/-- The struct `SerialData`: `CTSset` and `DSRset` are `-1` when the event is
not about that line, else `0` (clear) or `1` (set); `Data` is the payload. -/
structure SerialData where
  CTSset : Int
  DSRset : Int
  Data : List Byte
deriving DecidableEq, Repr

/-- The result of `ser.GetModemStatusBits()`, restricted to the two lines the
monitor looks at. -/
structure ModemStatusBits where
  CTS : Bool
  DSR : Bool
deriving DecidableEq, Repr

/-! ## Control monitor (serial.go, lines 96-132) -/

/-- Everything `GetControlStatus` sends before it returns: the events put on
the channel `c`, in order, and the causes put on the channel `ec`. -/
structure MonitorTrace where
  events : List SerialData
  causes : List String
deriving DecidableEq, Repr

/-- Lines 109-115: the CTS branch of one poll. Returns the new value of
`currentCTSStatus` and the events sent. -/
def ctsBranch (currentCTSStatus : Int) (bits : ModemStatusBits) : Int × List SerialData :=
  if bits.CTS && decide (currentCTSStatus < 1) then
    (1, [{ CTSset := 1, DSRset := -1, Data := [] }])
  else if !bits.CTS && decide (currentCTSStatus ≠ 0) then
    (0, [{ CTSset := 0, DSRset := -1, Data := [] }])
  else
    (currentCTSStatus, [])

/-- Lines 117-123: the DSR branch of one poll. -/
def dsrBranch (currentDSRStatus : Int) (bits : ModemStatusBits) : Int × List SerialData :=
  if bits.DSR && decide (currentDSRStatus < 1) then
    (1, [{ CTSset := -1, DSRset := 1, Data := [] }])
  else if !bits.DSR && decide (currentDSRStatus ≠ 0) then
    (0, [{ CTSset := -1, DSRset := 0, Data := [] }])
  else
    (currentDSRStatus, [])

/-- The loop of `GetControlStatus` (lines 102-131), run on the successive
results of `ser.GetModemStatusBits()`. The loop leaves through `ctx.Done()`
after the last poll of the list; a failed poll sends one cause and returns. -/
def GetControlStatusLoop (currentCTSStatus currentDSRStatus : Int) :
    List (Except String ModemStatusBits) → MonitorTrace
  | [] => { events := [], causes := [] }
  | Except.error err :: _ =>
      { events := [], causes := ["error getting status bits: " ++ err] }
  | Except.ok bits :: polls =>
      let c := ctsBranch currentCTSStatus bits
      let d := dsrBranch currentDSRStatus bits
      let t := GetControlStatusLoop c.1 d.1 polls
      { events := c.2 ++ d.2 ++ t.events, causes := t.causes }

/-- The function `GetControlStatus`: both last-known states start at `-1`
(lines 100-101). -/
def GetControlStatus (polls : List (Except String ModemStatusBits)) : MonitorTrace :=
  GetControlStatusLoop (-1) (-1) polls

/-- The event announcing that CTS was sampled as `s`. -/
def ctsEvent (s : Bool) : SerialData :=
  { CTSset := if s then 1 else 0, DSRset := -1, Data := [] }

/-- The event announcing that DSR was sampled as `s`. -/
def dsrEvent (s : Bool) : SerialData :=
  { CTSset := -1, DSRset := if s then 1 else 0, Data := [] }

/-- The event sequence as the specification words it: for each poll in order,
a CTS event when this is the first poll or the CTS sample differs from the
previous poll, then a DSR event under the same condition for DSR. `prev` is
the previous poll, `none` before the first one. -/
def specEvents : Option ModemStatusBits → List ModemStatusBits → List SerialData
  | _, [] => []
  | prev, bits :: rest =>
      (if prev.all (fun p => p.CTS != bits.CTS) then [ctsEvent bits.CTS] else []) ++
      (if prev.all (fun p => p.DSR != bits.DSR) then [dsrEvent bits.DSR] else []) ++
      specEvents (some bits) rest

/-- The events that concern CTS. -/
def isCTSEvent (e : SerialData) : Bool := decide (e.CTSset ≠ -1)

/-- The events that concern DSR. -/
def isDSREvent (e : SerialData) : Bool := decide (e.CTSset = -1 ∧ e.DSRset ≠ -1)

/-! ## Port handle and applier (serial.go, lines 69-94 and 159-181) -/

/-- The answer of one call `ser.Write(p)`: the count `n` and the error. -/
structure WriteResult where
  n : Nat
  err : Option String
deriving DecidableEq, Repr

/-- The operations of `*serial.Port` that the applier calls, over a device
state `σ` that each call may change. An error is `some message`. -/
structure PortHandle (σ : Type) where
  Write : σ → List Byte → WriteResult × σ
  SetRTS : σ → Bool → Option String × σ
  SetDTR : σ → Bool → Option String × σ

/-- The struct `SerialPort`. -/
structure SerialPort (σ : Type) where
  Port : PortHandle σ
  Direction : String
  Label : String

/-- One call of `ser.Write` as `WriteBytes` made it: the bytes offered and the
answer. -/
structure WriteCall where
  offered : List Byte
  n : Nat
  err : Option String
deriving DecidableEq, Repr

/-- What `WriteBytes` returns (`err`), the calls of `ser.Write` it made, in
order, and the device state it leaves. -/
structure WriteBytesResult (σ : Type) where
  err : Option String
  calls : List WriteCall
  st : σ

/-- The loop of `WriteBytes` (lines 163-172). `fuel` bounds the number of
iterations; `none` means the bound was reached with bytes still unwritten. -/
def WriteBytesLoop {σ : Type} (ser : PortHandle σ) (data : List Byte) :
    Nat → Nat → σ → Option (WriteBytesResult σ)
  | 0, bytesWritten, st =>
      if bytesWritten < data.length then none
      else some { err := none, calls := [], st := st }
  | fuel + 1, bytesWritten, st =>
      if bytesWritten < data.length then
        let r := ser.Write st (data.drop bytesWritten)
        let call : WriteCall :=
          { offered := data.drop bytesWritten, n := r.1.n, err := r.1.err }
        match r.1.err with
        | some err => some { err := some err, calls := [call], st := r.2 }
        | none =>
            (WriteBytesLoop ser data fuel (bytesWritten + r.1.n) r.2).map
              (fun t => { t with calls := call :: t.calls })
      else some { err := none, calls := [], st := st }

/-- The function `WriteBytes`: `bytesWritten` starts at `0` (line 163). -/
def WriteBytes {σ : Type} (fuel : Nat) (ser : PortHandle σ) (data : List Byte) (st : σ) :
    Option (WriteBytesResult σ) :=
  WriteBytesLoop ser data fuel 0 st

/-- The bytes the device accepted in the given calls, in call order. -/
def accepted : List WriteCall → List Byte
  | [] => []
  | c :: cs => c.offered.take c.n ++ accepted cs

/-- A write operation of which each call either fails or accepts at least one
and at most all of the bytes offered to it. -/
def WellBehaved {σ : Type} (ser : PortHandle σ) : Prop :=
  ∀ (st : σ) (p : List Byte), p ≠ [] → (ser.Write st p).1.err = none →
    1 ≤ (ser.Write st p).1.n ∧ (ser.Write st p).1.n ≤ p.length

/-- The device's own account of a series of writes: the chunks `offers` are
handed to `ser.Write` one after the other, from the state `st` on; the result
is each chunk with the answer the device gave, and the state the device is left
in. A list of recorded calls equals this account of its own chunks exactly when
the calls were made on the device, in that order, and nothing else was. -/
def deviceWrites {σ : Type} (ser : PortHandle σ) : σ → List (List Byte) → List WriteCall × σ
  | st, [] => ([], st)
  | st, p :: offers =>
      let r := ser.Write st p
      let rest := deviceWrites ser r.2 offers
      ({ offered := p, n := r.1.n, err := r.1.err } :: rest.1, rest.2)

/-- One operation attempted on the destination port, with its outcome. -/
inductive PortOp where
  | SetRTS (value : Bool) (err : Option String)
  | SetDTR (value : Bool) (err : Option String)
  | WriteBytes (data : List Byte) (calls : List WriteCall) (err : Option String)
deriving DecidableEq, Repr

/-- The error an attempted operation came back with. -/
def PortOp.err : PortOp → Option String
  | PortOp.SetRTS _ e => e
  | PortOp.SetDTR _ e => e
  | PortOp.WriteBytes _ _ e => e

/-- A line handed to the logger. -/
inductive LogLine where
  | ControlFlow (direction message : String) (state : Bool)
  | Data (direction : String) (data : List Byte)
deriving DecidableEq, Repr

/-- The function `LogControlFlow` (lines 202-215): silent unless
`CFG_LOG_CONTROL_FLOW` is on. -/
def LogControlFlow (cfgLogControlFlow : Bool) (direction message : String) (state : Bool) :
    List LogLine :=
  if !cfgLogControlFlow then [] else [LogLine.ControlFlow direction message state]

/-- The verb `%v` of `fmt` applied to a boolean. -/
def fmtBool (b : Bool) : String := if b then "true" else "false"

/-- What one run of `HandleSerialData` did: the operations attempted on the
destination port, the causes sent on `ec`, the log lines, the device state. -/
structure Applied (σ : Type) where
  ops : List PortOp
  causes : List String
  logs : List LogLine
  st : σ

/-- The function `HandleSerialData` (lines 69-94); `delay` is `0` at both
call sites. `fuel` bounds the loop of `WriteBytes`. -/
def HandleSerialData {σ : Type} (cfgLogControlFlow : Bool) (fuel : Nat) (port : SerialPort σ)
    (data : SerialData) (st : σ) : Option (Applied σ) :=
  if data.CTSset ≠ -1 then
    let value := decide (data.CTSset > 0)
    let r := port.Port.SetRTS st value
    some {
      ops := [PortOp.SetRTS value r.1]
      causes := match r.1 with
        | some err => ["error setting RTS on " ++ port.Label ++ " port to value " ++
            fmtBool value ++ ": " ++ err]
        | none => []
      logs := LogControlFlow cfgLogControlFlow port.Direction "CTS" value
      st := r.2 }
  else if data.DSRset ≠ -1 then
    let value := decide (data.DSRset > 0)
    let r := port.Port.SetDTR st value
    some {
      ops := [PortOp.SetDTR value r.1]
      causes := match r.1 with
        | some err => ["error setting DTR on " ++ port.Label ++ " port to value " ++
            fmtBool value ++ ": " ++ err]
        | none => []
      logs := LogControlFlow cfgLogControlFlow port.Direction "DSR" value
      st := r.2 }
  else
    (WriteBytes fuel port.Port data.Data st).map fun w => {
      ops := [PortOp.WriteBytes data.Data w.calls w.err]
      causes := match w.err with
        | some err => ["error writing data to " ++ port.Label ++ ": " ++ err]
        | none => []
      logs := match w.err with
        | some _ => []
        | none => [LogLine.Data port.Direction data.Data]
      st := w.st }

/-- The event carrying a chunk of bytes. -/
def dataEvent (bytes : List Byte) : SerialData :=
  { CTSset := -1, DSRset := -1, Data := bytes }

/-- The text `part` occurs in the text `msg`. -/
def containsText (msg part : String) : Prop := part.data <:+: msg.data

/-- The state of an example device: the levels its output lines RTS and DTR
were last set to, and the bytes it has accepted so far. -/
structure Wire where
  rts : Option Bool
  dtr : Option Bool
  received : List Byte
deriving DecidableEq, Repr

/-- An example device on which nothing has been done yet. -/
def Wire.idle : Wire := { rts := none, dtr := none, received := [] }

/-- A device that accepts one byte per call of `Write` and never fails; it
keeps the bytes it accepted and the levels its lines were set to. -/
def oneByteDevice : PortHandle Wire where
  Write := fun st p =>
    ({ n := if p.length = 0 then 0 else 1, err := none },
      { st with received := st.received ++ p.take 1 })
  SetRTS := fun st v => (none, { st with rts := some v })
  SetDTR := fun st v => (none, { st with dtr := some v })

/-- A device that is gone: every operation on it fails and changes nothing. -/
def brokenDevice : PortHandle Wire where
  Write := fun st _ => ({ n := 0, err := some "device gone" }, st)
  SetRTS := fun st _ => (some "device gone", st)
  SetDTR := fun st _ => (some "device gone", st)

/-- Endpoint B on a device that is gone. -/
def endpointB : SerialPort Wire :=
  { Port := brokenDevice, Direction := "A -> B", Label := "B" }

/-- Endpoint B on a device that accepts one byte per call. -/
def endpointBOneByte : SerialPort Wire :=
  { Port := oneByteDevice, Direction := "A -> B", Label := "B" }

/-! ## Event router (serial.go, lines 39-67) -/

/-- The two endpoints of the bridge. -/
inductive Side where
  | Left
  | Right
deriving DecidableEq, Repr

/-- The other endpoint. -/
def Side.opposite : Side → Side
  | Side.Left => Side.Right
  | Side.Right => Side.Left

/-- What one round of the `select` of `MainLoop` receives: a value from
`dataLeftToRight`, a value from `dataRightToLeft`, or a value from
`errorOccured`. -/
inductive Msg where
  | leftToRight (data : SerialData)
  | rightToLeft (data : SerialData)
  | errorOccured (err : String)
deriving DecidableEq, Repr

/-- One statement `go HandleSerialData(port, data, ...)`: the endpoint handed
to the applier and the event. -/
structure Dispatch where
  port : Side
  data : SerialData
deriving DecidableEq, Repr

/-- The loop of `MainLoop` (lines 55-66) run on the successive values its
`select` receives: the applier calls it launches, in order, and the error it
returns; `none` when the messages run out, where the loop waits on. -/
def MainLoop : List Msg → List Dispatch × Option String
  | [] => ([], none)
  | Msg.leftToRight dataLTR :: rest =>
      let r := MainLoop rest
      ({ port := Side.Right, data := dataLTR } :: r.1, r.2)
  | Msg.rightToLeft dataRTL :: rest =>
      let r := MainLoop rest
      ({ port := Side.Left, data := dataRTL } :: r.1, r.2)
  | Msg.errorOccured err :: _ => ([], some err)

/-- The message by which an event observed on endpoint `src` reaches the
router: the left port's monitor and reader send on `dataLeftToRight`, the
right port's on `dataRightToLeft` (lines 45-50). -/
def Msg.ofEvent (src : Side) (data : SerialData) : Msg :=
  match src with
  | Side.Left => Msg.leftToRight data
  | Side.Right => Msg.rightToLeft data

/-! ## Data reader (serial.go, lines 134-157) -/

/-- A Go slice of the reader's buffer `buf`, that is `buf[off : off+len]`. A
slice holds no bytes of its own: it denotes the bytes the buffer holds at the
time it is looked at. -/
structure BufSlice where
  off : Nat
  len : Nat
deriving DecidableEq, Repr

/-- The bytes a slice denotes when the buffer holds `buf`. -/
def BufSlice.bytes (s : BufSlice) (buf : List Byte) : List Byte :=
  (buf.drop s.off).take s.len

/-- The value `SerialData{CTSset: -1, DSRset: -1, Data: buf[:n]}` as the reader
sends it: `Data` is a slice of `buf`. -/
structure SerialDataRef where
  CTSset : Int
  DSRset : Int
  Data : BufSlice
deriving DecidableEq, Repr

/-- The event a receiver sees when it looks at the sent value while the
reader's buffer holds `buf`. -/
def SerialDataRef.deref (e : SerialDataRef) (buf : List Byte) : SerialData :=
  { CTSset := e.CTSset, DSRset := e.DSRset, Data := e.Data.bytes buf }

/-- The call `ser.Read(buf)` when the device delivers `bytes`: at most
`len(buf)` of them are stored at the start of `buf`; returns the buffer after
the call and the count `n`. -/
def readInto (buf bytes : List Byte) : List Byte × Nat :=
  let got := bytes.take buf.length
  (got ++ buf.drop got.length, got.length)

/-- Everything `ReadBytes` sends before it returns, and the content of its
buffer at that time. -/
structure ReaderTrace where
  events : List SerialDataRef
  causes : List String
  buf : List Byte
deriving DecidableEq, Repr

/-- The loop of `ReadBytes` (lines 139-156), run on the successive results of
`ser.Read(buf)`: `Except.ok bytes` when the device delivers `bytes` (none on a
timeout), `Except.error` when the read fails. The loop leaves through
`ctx.Done()` after the last read of the list. -/
def ReadBytesLoop : List Byte → List (Except String (List Byte)) → ReaderTrace
  | buf, [] => { events := [], causes := [], buf := buf }
  | buf, Except.error err :: _ =>
      { events := [], causes := ["error reading serial port: " ++ err], buf := buf }
  | buf, Except.ok bytes :: reads =>
      let r := readInto buf bytes
      let t := ReadBytesLoop r.1 reads
      { events := (if r.2 > 0 then
            [{ CTSset := -1, DSRset := -1, Data := { off := 0, len := r.2 } }]
          else []) ++ t.events,
        causes := t.causes,
        buf := t.buf }

/-- The function `ReadBytes`: the buffer is made once, zeroed, with
`CFG_READ_BUFFER_SIZE` bytes (line 138). -/
def ReadBytes (cfgReadBufferSize : Nat) (reads : List (Except String (List Byte))) :
    ReaderTrace :=
  ReadBytesLoop (List.replicate cfgReadBufferSize 0) reads

/-! ## Shutdown protocol (serial.go, lines 39-157; main.go, lines 99-108)

The goroutines of one run as an interleaving state machine. The channels
`dataLeftToRight`, `dataRightToLeft` and `errorOccured` are unbuffered
(lines 40-42), so a send completes only together with a receive, and the only
receiver of all three is the `select` of `MainLoop`. -/

/-- Where the main goroutine is: in the `select` of `MainLoop`; back in `main`
with the returned error (main.go line 103); at `wg.Wait()` after `ctxCancel()`
(line 108); past `wg.Wait()`. -/
inductive MainPC where
  | Select
  | Returned
  | Waiting
  | Exited
deriving DecidableEq, Repr

/-- Where a `GetControlStatus` or `ReadBytes` goroutine is: before
`wg.Add(1)`; at the port call at the top of its loop; at `c <- SerialData`;
at `ec <- err`; at the `select` on `time.After` and `ctx.Done()`; returned
(the deferred `wg.Done()` has run). -/
inductive WorkerPC where
  | Start
  | Loop
  | SendEvent
  | SendErr
  | Pause
  | Done
deriving DecidableEq, Repr

/-- Where `GetUserInput` is: at `os.Stdin.Read`; at `ec <- err`; returned. -/
inductive UserPC where
  | Reading
  | SendErr
  | Done
deriving DecidableEq, Repr

/-- Where a `HandleSerialData` goroutine is: before its port operation; inside
`WriteBytes` (between `wg.Add(1)` and the deferred `wg.Done()`); at
`ec <- err`; returned. -/
inductive HandlerPC where
  | Apply
  | Writing
  | SendErr
  | Done
deriving DecidableEq, Repr

/-- The state of one run: the four monitor and reader goroutines are
`workers` (left monitor, left reader, right monitor, right reader), `wg` is
the counter of the `sync.WaitGroup`, `cancelled` tells whether `ctxCancel()`
has run. -/
structure Run where
  main : MainPC
  cancelled : Bool
  wg : Nat
  workers : List WorkerPC
  user : UserPC
  handlers : List HandlerPC
deriving DecidableEq, Repr

/-- One move of one goroutine. -/
inductive Action where
  | workerAdd (i : Nat)
  | workerQuiet (i : Nat)
  | workerEmit (i : Nat)
  | workerFail (i : Nat)
  | workerDelivered (i : Nat) (more : Bool)
  | workerReported (i : Nat)
  | workerTick (i : Nat)
  | workerCancelled (i : Nat)
  | userKey
  | userReported
  | handlerLineSet (j : Nat) (ok : Bool)
  | handlerWriteBegin (j : Nat)
  | handlerWriteEnd (j : Nat) (ok : Bool)
  | handlerReported (j : Nat)
  | mainCancel
  | mainWaitDone
deriving DecidableEq, Repr

/-- The effect of a move, `none` when the goroutine cannot make it in this
state. A send needs the main goroutine in the `select` of `MainLoop`; on an
event `MainLoop` launches a handler and selects again (lines 57-61), on a
cause it returns (lines 63-64). -/
def step (s : Run) : Action → Option Run
  | Action.workerAdd i =>
      if s.workers[i]? = some WorkerPC.Start then
        some { s with workers := s.workers.set i WorkerPC.Loop, wg := s.wg + 1 }
      else none
  | Action.workerQuiet i =>
      if s.workers[i]? = some WorkerPC.Loop then
        some { s with workers := s.workers.set i WorkerPC.Pause }
      else none
  | Action.workerEmit i =>
      if s.workers[i]? = some WorkerPC.Loop then
        some { s with workers := s.workers.set i WorkerPC.SendEvent }
      else none
  | Action.workerFail i =>
      if s.workers[i]? = some WorkerPC.Loop then
        some { s with workers := s.workers.set i WorkerPC.SendErr }
      else none
  | Action.workerDelivered i more =>
      if s.workers[i]? = some WorkerPC.SendEvent ∧ s.main = MainPC.Select then
        some { s with
          workers := s.workers.set i (if more then WorkerPC.SendEvent else WorkerPC.Pause),
          handlers := s.handlers ++ [HandlerPC.Apply] }
      else none
  | Action.workerReported i =>
      if s.workers[i]? = some WorkerPC.SendErr ∧ s.main = MainPC.Select then
        some { s with
          workers := s.workers.set i WorkerPC.Done, wg := s.wg - 1, main := MainPC.Returned }
      else none
  | Action.workerTick i =>
      if s.workers[i]? = some WorkerPC.Pause then
        some { s with workers := s.workers.set i WorkerPC.Loop }
      else none
  | Action.workerCancelled i =>
      if s.workers[i]? = some WorkerPC.Pause ∧ s.cancelled = true then
        some { s with workers := s.workers.set i WorkerPC.Done, wg := s.wg - 1 }
      else none
  | Action.userKey =>
      if s.user = UserPC.Reading then some { s with user := UserPC.SendErr } else none
  | Action.userReported =>
      if s.user = UserPC.SendErr ∧ s.main = MainPC.Select then
        some { s with user := UserPC.Done, main := MainPC.Returned }
      else none
  | Action.handlerLineSet j ok =>
      if s.handlers[j]? = some HandlerPC.Apply then
        some { s with
          handlers := s.handlers.set j (if ok then HandlerPC.Done else HandlerPC.SendErr) }
      else none
  | Action.handlerWriteBegin j =>
      if s.handlers[j]? = some HandlerPC.Apply then
        some { s with handlers := s.handlers.set j HandlerPC.Writing, wg := s.wg + 1 }
      else none
  | Action.handlerWriteEnd j ok =>
      if s.handlers[j]? = some HandlerPC.Writing then
        some { s with
          handlers := s.handlers.set j (if ok then HandlerPC.Done else HandlerPC.SendErr),
          wg := s.wg - 1 }
      else none
  | Action.handlerReported j =>
      if s.handlers[j]? = some HandlerPC.SendErr ∧ s.main = MainPC.Select then
        some { s with handlers := s.handlers.set j HandlerPC.Done, main := MainPC.Returned }
      else none
  | Action.mainCancel =>
      if s.main = MainPC.Returned then
        some { s with main := MainPC.Waiting, cancelled := true }
      else none
  | Action.mainWaitDone =>
      if s.main = MainPC.Waiting ∧ s.wg = 0 then some { s with main := MainPC.Exited }
      else none

/-- A schedule: moves made one after the other. -/
def exec (s : Run) : List Action → Option Run
  | [] => some s
  | a :: rest => (step s a).bind (fun s' => exec s' rest)

/-- The run when `MainLoop` has launched its five goroutines (lines 45-53) and
enters its loop. -/
def start : Run :=
  { main := MainPC.Select, cancelled := false, wg := 0,
    workers := [WorkerPC.Start, WorkerPC.Start, WorkerPC.Start, WorkerPC.Start],
    user := UserPC.Reading, handlers := [] }

/-- What a worker holds of the wait-group counter. -/
def WorkerPC.held : WorkerPC → Nat
  | WorkerPC.Start => 0
  | WorkerPC.Done => 0
  | _ => 1

/-- What a handler holds of the wait-group counter. -/
def HandlerPC.held : HandlerPC → Nat
  | HandlerPC.Writing => 1
  | _ => 0

/-- The wait-group counter is the number of goroutines between their
`wg.Add(1)` and their `wg.Done()`. -/
def Accounted (s : Run) : Prop :=
  s.wg = (s.workers.map WorkerPC.held).sum + (s.handlers.map HandlerPC.held).sum

/-- The main goroutine has left `MainLoop` and has not exited, while the left
monitor stands at the send `pc`. -/
def Hung (pc : WorkerPC) (s : Run) : Prop :=
  (s.main = MainPC.Returned ∨ s.main = MainPC.Waiting) ∧ s.workers[0]? = some pc ∧ Accounted s

/-! ## Configuration parser (serial.go, lines 31-37 and 232-280) -/

/-- The constants of `serial.Parity` that the parser assigns. -/
inductive Parity where
  | NoParity
  | OddParity
  | EvenParity
  | MarkParity
  | SpaceParity
deriving DecidableEq, Repr

/-- The constants of `serial.StopBits`. -/
inductive StopBits where
  | OneStopBit
  | OnePointFiveStopBits
  | TwoStopBits
deriving DecidableEq, Repr

/-- The struct `SerialOptions`. -/
structure SerialOptions where
  Port : String
  BaudRate : Int
  Parity : Parity
  DataBits : Int
  StopBits : StopBits
deriving DecidableEq, Repr

/-- The regular-expression syntax that the pattern of `ParseSerialOptions`
uses: a literal, `.`, `\d`, a character class, concatenation, alternation,
the lazy star `*?`, the greedy bounded repetition `{lo,hi}`, a capturing
group. -/
inductive Re where
  | lit (c : Char)
  | dot
  | digit
  | oneOf (cs : List Char)
  | seq (a b : Re)
  | alt (a b : Re)
  | lazyStar (a : Re)
  | rep (a : Re) (lo hi : Nat)
  | group (a : Re)

/-- One way of matching a prefix of the text: the text matched, the texts of
the capturing groups in the order of their opening brackets, the text left. -/
structure Match where
  consumed : List Char
  groups : List (List Char)
  rest : List Char
deriving DecidableEq, Repr

/-- The ways of matching one character that satisfies `p`. -/
def matchChar (p : Char → Bool) : List Char → List Match
  | [] => []
  | c :: cs => if p c then [{ consumed := [c], groups := [], rest := cs }] else []

/-- Each way in `ms`, continued by each way of `k` on the text it leaves; the
ways of the first part keep their order of preference. -/
def andThen (ms : List Match) (k : List Char → List Match) : List Match :=
  ms.flatMap fun m => (k m.rest).map fun m' =>
    { consumed := m.consumed ++ m'.consumed, groups := m.groups ++ m'.groups, rest := m'.rest }

/-- Greedy repetition, between `lo` and `hi` times: one more round is
preferred to stopping. -/
def greedy (m : List Char → List Match) : Nat → Nat → List Char → List Match
  | lo, 0, s => if lo = 0 then [{ consumed := [], groups := [], rest := s }] else []
  | lo, hi + 1, s =>
      andThen (m s) (greedy m (lo - 1) hi) ++
        (if lo = 0 then [{ consumed := [], groups := [], rest := s }] else [])

/-- Lazy repetition, at most `n` times: stopping is preferred to one more
round. -/
def lazyRounds (m : List Char → List Match) : Nat → List Char → List Match
  | 0, s => [{ consumed := [], groups := [], rest := s }]
  | n + 1, s => { consumed := [], groups := [], rest := s } :: andThen (m s) (lazyRounds m n)

/-- All the ways in which the expression matches a prefix of the text, in the
order in which a backtracking matcher tries them; Go's `regexp` returns the
match that such a matcher finds first. In Go `.` matches any character but a
line feed and `\d` is `[0-9]`. A lazy star needs no more rounds than the text
has characters. -/
def Re.run : Re → List Char → List Match
  | Re.lit c => matchChar (fun x => x == c)
  | Re.dot => matchChar (fun x => x != '\n')
  | Re.digit => matchChar Char.isDigit
  | Re.oneOf cs => matchChar (fun x => cs.contains x)
  | Re.seq a b => fun s => andThen (a.run s) b.run
  | Re.alt a b => fun s => a.run s ++ b.run s
  | Re.lazyStar a => fun s => lazyRounds a.run s.length s
  | Re.rep a lo hi => greedy a.run lo hi
  | Re.group a => fun s => (a.run s).map fun m => { m with groups := m.consumed :: m.groups }

/-- The call `FindStringSubmatch` for a pattern `^body$`: the anchors make the
match the whole text, so the result is the first way of matching that leaves
nothing; it holds the text matched and then the texts of the groups. -/
def FindStringSubmatch (body : Re) (text : List Char) : Option (List (List Char)) :=
  ((body.run text).find? (fun m => m.rest.isEmpty)).map (fun m => m.consumed :: m.groups)

/-- The pattern of line 236 between its anchors:
`(.*?),(\d{3,7}),([neomsNEOMS]),([5678]),(1|1.5|2)`. -/
def regPattern : Re :=
  Re.seq (Re.group (Re.lazyStar Re.dot))
  (Re.seq (Re.lit ',')
  (Re.seq (Re.group (Re.rep Re.digit 3 7))
  (Re.seq (Re.lit ',')
  (Re.seq (Re.group (Re.oneOf ['n', 'e', 'o', 'm', 's', 'N', 'E', 'O', 'M', 'S']))
  (Re.seq (Re.lit ',')
  (Re.seq (Re.group (Re.oneOf ['5', '6', '7', '8']))
  (Re.seq (Re.lit ',')
  (Re.group (Re.alt (Re.lit '1')
    (Re.alt (Re.seq (Re.lit '1') (Re.seq Re.dot (Re.lit '5'))) (Re.lit '2')))))))))))

/-- The loop of `strconv.Atoi` over the digits: `n = n*10 + (ch - '0')`. -/
def atoiLoop : Nat → List Char → Nat
  | n, [] => n
  | n, ch :: rest => atoiLoop (n * 10 + (ch.toNat - '0'.toNat)) rest

/-- The function `strconv.Atoi` for a 64-bit `int`: an optional sign, then one
or more decimal digits; the value has to fit. -/
def Atoi (s : List Char) : Except String Int :=
  let neg := s.head? == some '-'
  let ds := if s.head? == some '-' || s.head? == some '+' then s.tail else s
  if ds.isEmpty || !ds.all Char.isDigit then
    Except.error ("strconv.Atoi: parsing " ++ String.mk s ++ ": invalid syntax")
  else
    let n := atoiLoop 0 ds
    if neg then
      if n ≤ 2 ^ 63 then Except.ok (-(n : Int))
      else Except.error ("strconv.Atoi: parsing " ++ String.mk s ++ ": value out of range")
    else
      if n < 2 ^ 63 then Except.ok (n : Int)
      else Except.error ("strconv.Atoi: parsing " ++ String.mk s ++ ": value out of range")

/-- The function `strings.ToLower`, on the letters `A` to `Z`. -/
def ToLower (s : List Char) : List Char := s.map Char.toLower

/-- The `switch` of lines 248-261; `none` is its `default` branch. -/
def switchParity (s : List Char) : Option Parity :=
  if s = ['n'] then some Parity.NoParity
  else if s = ['o'] then some Parity.OddParity
  else if s = ['m'] then some Parity.MarkParity
  else if s = ['s'] then some Parity.SpaceParity
  else if s = ['e'] then some Parity.EvenParity
  else none

/-- The `switch` of lines 268-277; `none` is its `default` branch. -/
def switchStopBits (s : List Char) : Option StopBits :=
  if s = ['1'] then some StopBits.OneStopBit
  else if s = ['1', '.', '5'] then some StopBits.OnePointFiveStopBits
  else if s = ['2'] then some StopBits.TwoStopBits
  else none

/-- The function `ParseSerialOptions`. `submatches` is the slice `matches` of
the source; an error is the message of the returned `error`. -/
def ParseSerialOptions (optionString : String) : Except String SerialOptions :=
  match FindStringSubmatch regPattern optionString.data with
  | none => Except.error ("invalid serial port definition: " ++ optionString)
  | some submatches =>
    match Atoi (submatches.getD 2 []) with
    | Except.error err =>
        Except.error ("invalid serial port definition: " ++ optionString ++
          " (inner error: " ++ err ++ ")")
    | Except.ok baudRate =>
      match switchParity (ToLower (submatches.getD 3 [])) with
      | none => Except.error ("invalid serial port definition: " ++ optionString)
      | some parity =>
        match Atoi (submatches.getD 4 []) with
        | Except.error err =>
            Except.error ("invalid serial port definition: " ++ optionString ++
              " (inner error: " ++ err ++ ")")
        | Except.ok dataBits =>
          match switchStopBits (ToLower (submatches.getD 5 [])) with
          | none => Except.error ("invalid serial port definition: " ++ optionString)
          | some stopBits =>
              Except.ok { Port := String.mk (submatches.getD 1 []), BaudRate := baudRate,
                          Parity := parity, DataBits := dataBits, StopBits := stopBits }

/-- The text `PORT,BAUD,PARITY,DATABITS,STOPBITS`. -/
def optionText (port baud parity databits stopbits : List Char) : List Char :=
  port ++ ',' :: (baud ++ ',' :: (parity ++ ',' :: (databits ++ ',' :: stopbits)))

/-- BAUD is 3 to 7 decimal digits. -/
def isBaud (baud : List Char) : Bool :=
  baud.all Char.isDigit && decide (3 ≤ baud.length) && decide (baud.length ≤ 7)

/-- The parity a letter names, in either case. -/
def parityOfLetter : Char → Option Parity
  | 'n' => some Parity.NoParity
  | 'N' => some Parity.NoParity
  | 'o' => some Parity.OddParity
  | 'O' => some Parity.OddParity
  | 'm' => some Parity.MarkParity
  | 'M' => some Parity.MarkParity
  | 's' => some Parity.SpaceParity
  | 'S' => some Parity.SpaceParity
  | 'e' => some Parity.EvenParity
  | 'E' => some Parity.EvenParity
  | _ => none

/-- The number of data bits a digit names. -/
def dataBitsOfDigit : Char → Option Int
  | '5' => some 5
  | '6' => some 6
  | '7' => some 7
  | '8' => some 8
  | _ => none

/-- The stop-bit setting a text names. -/
def stopBitsOfText (s : List Char) : Option StopBits :=
  if s = "1".data then some StopBits.OneStopBit
  else if s = "1.5".data then some StopBits.OnePointFiveStopBits
  else if s = "2".data then some StopBits.TwoStopBits
  else none

/-- The number a text of decimal digits denotes. -/
def decimalValue (digits : List Char) : Nat :=
  Nat.ofDigits 10 (digits.reverse.map (fun c => c.toNat - 48))

/-- The ways `f` finds are exactly the splits of the text into a word and a
rest where the word, with the group texts, satisfies `L`. -/
def Describes (f : List Char → List Match) (L : List Char → List (List Char) → Prop) : Prop :=
  ∀ s m, m ∈ f s ↔ L m.consumed m.groups ∧ s = m.consumed ++ m.rest

/-- The texts group 5 of the pattern matches: `1`, `2`, or `1`, any character
but a line feed, `5`. -/
def StopShape (sb : List Char) : Prop :=
  sb = ['1'] ∨ (∃ x, x ≠ '\n' ∧ sb = ['1', x, '5']) ∨ sb = ['2']

/-- The texts the pattern matches, with the texts of its five groups. -/
def Parsed (w : List Char) (g : List (List Char)) : Prop :=
  ∃ port baud par db sb,
    '\n' ∉ port ∧ isBaud baud = true ∧
    par ∈ ['n', 'e', 'o', 'm', 's', 'N', 'E', 'O', 'M', 'S'] ∧ db ∈ ['5', '6', '7', '8'] ∧
    StopShape sb ∧ w = optionText port baud [par] [db] sb ∧ g = [port, baud, [par], [db], sb]

/-- The value of a last-known status variable after a poll sampled `s`, and `-1`
before the first poll. -/
def lastKnown : Option Bool → Int
  | none => -1
  | some true => 1
  | some false => 0

/-! ## Theorems -/

theorem ctsBranch_eq (prev : Option Bool) (bits : ModemStatusBits) :
    ctsBranch (lastKnown prev) bits =
      (lastKnown (some bits.CTS),
        if prev.all (fun p => p != bits.CTS) then [ctsEvent bits.CTS] else []) := by
  rcases bits with ⟨c, d⟩
  rcases prev with _ | p <;> cases c <;> try cases p
  all_goals simp [ctsBranch, lastKnown, ctsEvent]

theorem dsrBranch_eq (prev : Option Bool) (bits : ModemStatusBits) :
    dsrBranch (lastKnown prev) bits =
      (lastKnown (some bits.DSR),
        if prev.all (fun p => p != bits.DSR) then [dsrEvent bits.DSR] else []) := by
  rcases bits with ⟨c, d⟩
  rcases prev with _ | p <;> cases d <;> try cases p
  all_goals simp [dsrBranch, lastKnown, dsrEvent]

theorem GetControlStatusLoop_spec (samples : List ModemStatusBits) :
    ∀ prev : Option ModemStatusBits,
      GetControlStatusLoop (lastKnown (prev.map (·.CTS))) (lastKnown (prev.map (·.DSR)))
          (samples.map Except.ok) =
        { events := specEvents prev samples, causes := [] } := by
  induction samples with
  | nil => intro prev; rfl
  | cons bits rest ih =>
    intro prev
    have h := ih (some bits)
    simp only [Option.map_some'] at h
    simp only [List.map_cons, GetControlStatusLoop, ctsBranch_eq, dsrBranch_eq, h, specEvents]
    cases prev <;> simp

/-- C1. For every finite sequence of polled (CTS, DSR) samples, starting from
the "unknown" last-known state, the events `GetControlStatus` emits are
exactly: for each poll in order, one CTS event carrying the sample when this
is the first poll or the CTS sample differs from the previous poll's, then one
DSR event under the same condition for DSR, and nothing otherwise; no cause is
reported. -/
theorem GetControlStatus_events (samples : List ModemStatusBits) :
    GetControlStatus (samples.map Except.ok) =
      { events := specEvents none samples, causes := [] } :=
  GetControlStatusLoop_spec samples none

theorem specEvents_filter_cts_same (s : Bool) (samples : List ModemStatusBits) :
    ∀ prev : ModemStatusBits, prev.CTS = s → (∀ b ∈ samples, b.CTS = s) →
      (specEvents (some prev) samples).filter isCTSEvent = [] := by
  induction samples with
  | nil => intro prev _ _; rfl
  | cons bits rest ih =>
    intro prev hp hall
    have hb : bits.CTS = s := hall bits (List.mem_cons_self _ _)
    have hr := ih bits hb (fun b hb => hall b (List.mem_cons_of_mem _ hb))
    simp only [specEvents, List.filter_append, hr, Option.all_some, hp, hb, bne_self_eq_false,
      List.append_nil]
    by_cases hd : (prev.DSR != bits.DSR) = true <;> simp [hd, isCTSEvent, dsrEvent]

theorem specEvents_filter_dsr_same (s : Bool) (samples : List ModemStatusBits) :
    ∀ prev : ModemStatusBits, prev.DSR = s → (∀ b ∈ samples, b.DSR = s) →
      (specEvents (some prev) samples).filter isDSREvent = [] := by
  induction samples with
  | nil => intro prev _ _; rfl
  | cons bits rest ih =>
    intro prev hp hall
    have hb : bits.DSR = s := hall bits (List.mem_cons_self _ _)
    have hr := ih bits hb (fun b hb => hall b (List.mem_cons_of_mem _ hb))
    simp only [specEvents, List.filter_append, hr, Option.all_some, hp, hb, bne_self_eq_false,
      List.append_nil]
    by_cases hd : (prev.CTS != bits.CTS) = true <;> cases hc : bits.CTS <;>
      simp [hd, isDSREvent, ctsEvent, hc]

/-- C2, as stated, fails: the claim says that a line whose first sample is
"clear" yields no event until a later sample is "set"; one poll that samples
both lines clear already sends a CTS event and a DSR event. -/
theorem first_clear_sample_not_silent :
    ¬ (∀ samples : List ModemStatusBits, samples ≠ [] →
        ((∀ b ∈ samples, b.CTS = false) →
          (GetControlStatus (samples.map Except.ok)).events.filter isCTSEvent = []) ∧
        ((∀ b ∈ samples, b.DSR = false) →
          (GetControlStatus (samples.map Except.ok)).events.filter isDSREvent = [])) := by
  intro h
  have h1 := (h [⟨false, false⟩] (by simp)).1 (by simp)
  revert h1
  decide

/-- C2, amended. For each monitored line, the first observed sample always
yields one event carrying the sampled state, clear and set alike, and as long
as the later samples of that line repeat the first one no further event is
sent for the line. -/
theorem first_sample_always_emitted (samples : List ModemStatusBits) (s : Bool)
    (hne : samples ≠ []) :
    ((∀ b ∈ samples, b.CTS = s) →
      (GetControlStatus (samples.map Except.ok)).events.filter isCTSEvent = [ctsEvent s]) ∧
    ((∀ b ∈ samples, b.DSR = s) →
      (GetControlStatus (samples.map Except.ok)).events.filter isDSREvent = [dsrEvent s]) := by
  cases samples with
  | nil => exact absurd rfl hne
  | cons bits rest =>
    have hrun := GetControlStatusLoop_spec (bits :: rest) none
    simp only [lastKnown, Option.map_none'] at hrun
    unfold GetControlStatus
    rw [hrun]
    constructor
    · intro hall
      have hb : bits.CTS = s := hall bits (List.mem_cons_self _ _)
      have hr := specEvents_filter_cts_same s rest bits hb
        (fun b hb => hall b (List.mem_cons_of_mem _ hb))
      cases s <;> simp [specEvents, List.filter_append, hr, hb, isCTSEvent, ctsEvent, dsrEvent]
    · intro hall
      have hb : bits.DSR = s := hall bits (List.mem_cons_self _ _)
      have hr := specEvents_filter_dsr_same s rest bits hb
        (fun b hb => hall b (List.mem_cons_of_mem _ hb))
      cases s <;> cases hc : bits.CTS <;>
        simp [specEvents, List.filter_append, hr, hb, hc, isDSREvent, ctsEvent, dsrEvent]

theorem first_sample_always_emitted_witness :
    (GetControlStatus ([⟨false, true⟩, ⟨false, false⟩].map Except.ok)).events.filter isCTSEvent
      = [ctsEvent false] :=
  (first_sample_always_emitted [⟨false, true⟩, ⟨false, false⟩] false (by simp)).1 (by simp)

/-! ### WriteBytes -/

/-- The shape of a finished run of the write loop that started with
`bytesWritten = bw`. -/
theorem WriteBytesLoop_spec {σ : Type} (ser : PortHandle σ) (data : List Byte)
    (h : WellBehaved ser) :
    ∀ (fuel bw : Nat) (st : σ), bw ≤ data.length → data.length - bw ≤ fuel →
      ∃ r, WriteBytesLoop ser data fuel bw st = some r ∧
        (∀ pre c post, r.calls = pre ++ c :: post →
          c.offered = data.drop (bw + (accepted pre).length)) ∧
        ((r.err = none ∧ (∀ c ∈ r.calls, c.err = none) ∧ accepted r.calls = data.drop bw) ∨
         (∃ e pre c, r.err = some e ∧ r.calls = pre ++ [c] ∧ c.err = some e ∧
            (∀ c' ∈ pre, c'.err = none) ∧ accepted pre <+: data.drop bw)) := by
  intro fuel
  induction fuel with
  | zero =>
    intro bw st hbw hfuel
    have hge : ¬ bw < data.length := by omega
    refine ⟨WriteBytesResult.mk none [] st, by simp [WriteBytesLoop, hge], ?_, ?_⟩
    · intro pre c post hsplit
      simp at hsplit
    · left
      have : data.length ≤ bw := by omega
      simp [accepted, List.drop_eq_nil_of_le this]
  | succ fuel ih =>
    intro bw st hbw hfuel
    by_cases hlt : bw < data.length
    · have hne : data.drop bw ≠ [] := by
        intro h0
        have := congrArg List.length h0
        simp at this
        omega
      cases herr : (ser.Write st (data.drop bw)).1.err with
      | some e =>
        refine ⟨WriteBytesResult.mk (some e)
            [WriteCall.mk (data.drop bw) (ser.Write st (data.drop bw)).1.n (some e)]
            (ser.Write st (data.drop bw)).2, ?_, ?_, ?_⟩
        · simp [WriteBytesLoop, hlt, herr]
        · intro pre c post hsplit
          cases pre with
          | nil =>
            simp at hsplit
            simp [← hsplit.1, accepted]
          | cons x xs =>
            simp at hsplit
        · right
          exact ⟨e, [], _, rfl, rfl, rfl, by simp, by simp [accepted]⟩
      | none =>
        obtain ⟨hn1, hn2⟩ := h st (data.drop bw) hne herr
        simp only [List.length_drop] at hn2
        obtain ⟨r, hr, hres, hshape⟩ :=
          ih (bw + (ser.Write st (data.drop bw)).1.n) (ser.Write st (data.drop bw)).2
            (by omega) (by omega)
        have hacc : ∀ cs : List WriteCall,
            accepted (WriteCall.mk (data.drop bw) (ser.Write st (data.drop bw)).1.n none :: cs) =
              (data.drop bw).take (ser.Write st (data.drop bw)).1.n ++ accepted cs := by
          intro cs; rfl
        have hsplitdata : (data.drop bw).take (ser.Write st (data.drop bw)).1.n ++
            data.drop (bw + (ser.Write st (data.drop bw)).1.n) = data.drop bw := by
          have := List.take_append_drop (ser.Write st (data.drop bw)).1.n (data.drop bw)
          rw [List.drop_drop] at this
          exact this
        refine ⟨WriteBytesResult.mk r.err
            (WriteCall.mk (data.drop bw) (ser.Write st (data.drop bw)).1.n none :: r.calls)
            r.st, ?_, ?_, ?_⟩
        · simp [WriteBytesLoop, hlt, herr, hr]
        · intro pre c post hsplit
          cases pre with
          | nil =>
            simp at hsplit
            simp [← hsplit.1, accepted]
          | cons x xs =>
            simp only [List.cons_append, List.cons.injEq] at hsplit
            have := hres xs c post hsplit.2
            rw [this, ← hsplit.1, hacc, List.length_append, List.length_take, List.length_drop]
            congr 1
            omega
        · rcases hshape with ⟨he, hall, hacc'⟩ | ⟨e, pre, c, he, hcalls, hce, hall, hpre⟩
          · left
            refine ⟨he, ?_, ?_⟩
            · intro c hc
              simp only [List.mem_cons] at hc
              rcases hc with rfl | hc
              · rfl
              · exact hall c hc
            · show accepted (_ :: r.calls) = _
              rw [hacc, hacc', hsplitdata]
          · right
            refine ⟨e, WriteCall.mk (data.drop bw) (ser.Write st (data.drop bw)).1.n none :: pre,
              c, he, by simp [hcalls], hce, ?_, ?_⟩
            · intro c' hc'
              simp only [List.mem_cons] at hc'
              rcases hc' with rfl | hc'
              · rfl
              · exact hall c' hc'
            · rw [hacc]
              have hp := (List.prefix_append_right_inj
                ((data.drop bw).take (ser.Write st (data.drop bw)).1.n)).mpr hpre
              rwa [hsplitdata] at hp
    · have hge : data.length ≤ bw := by omega
      refine ⟨WriteBytesResult.mk none [] st, by simp [WriteBytesLoop, hlt], ?_, ?_⟩
      · intro pre c post hsplit
        simp at hsplit
      · left
        simp [accepted, List.drop_eq_nil_of_le hge]

theorem deviceWrites_cons {σ : Type} (ser : PortHandle σ) (st : σ) (p : List Byte)
    (offers : List (List Byte)) :
    deviceWrites ser st (p :: offers) =
      (WriteCall.mk p (ser.Write st p).1.n (ser.Write st p).1.err ::
          (deviceWrites ser (ser.Write st p).2 offers).1,
        (deviceWrites ser (ser.Write st p).2 offers).2) := rfl

/-- Whenever the write loop returns, the calls it recorded are the calls the
device answered, in order, the state it hands back is the state they leave the
device in, and the error it returns is that of the last call, the only one
that failed. -/
theorem WriteBytesLoop_device {σ : Type} (ser : PortHandle σ) (data : List Byte) :
    ∀ (fuel bw : Nat) (st : σ) (r : WriteBytesResult σ),
      WriteBytesLoop ser data fuel bw st = some r →
        (r.calls, r.st) = deviceWrites ser st (r.calls.map WriteCall.offered) ∧
        ((r.err = none ∧ ∀ c ∈ r.calls, c.err = none) ∨
         (∃ e pre c, r.err = some e ∧ r.calls = pre ++ [c] ∧ c.err = some e ∧
            ∀ c' ∈ pre, c'.err = none)) := by
  intro fuel
  induction fuel with
  | zero =>
    intro bw st r hr
    by_cases hlt : bw < data.length
    · simp [WriteBytesLoop, hlt] at hr
    · simp only [WriteBytesLoop, hlt, if_false, Option.some.injEq] at hr
      subst hr
      exact ⟨rfl, Or.inl ⟨rfl, by simp⟩⟩
  | succ fuel ih =>
    intro bw st r hr
    by_cases hlt : bw < data.length
    · cases herr : (ser.Write st (data.drop bw)).1.err with
      | some e =>
        simp only [WriteBytesLoop, hlt, if_true, herr, Option.some.injEq] at hr
        subst hr
        refine ⟨?_, Or.inr ⟨e, [], _, rfl, rfl, rfl, by simp⟩⟩
        simp only [List.map_cons, List.map_nil, deviceWrites_cons, herr]
        rfl
      | none =>
        simp only [WriteBytesLoop, hlt, if_true, herr, Option.map_eq_some'] at hr
        obtain ⟨t, ht, hrt⟩ := hr
        subst hrt
        obtain ⟨hdev, hshape⟩ := ih _ _ t ht
        refine ⟨?_, ?_⟩
        · simp only [List.map_cons, deviceWrites_cons, herr, ← hdev]
        · rcases hshape with ⟨he, hall⟩ | ⟨e, pre, c, he, hcalls, hce, hall⟩
          · left
            refine ⟨he, ?_⟩
            intro c hc
            simp only [List.mem_cons] at hc
            rcases hc with rfl | hc
            · rfl
            · exact hall c hc
          · right
            refine ⟨e, WriteCall.mk (data.drop bw) (ser.Write st (data.drop bw)).1.n none :: pre,
              c, he, by simp [hcalls], hce, ?_⟩
            intro c' hc'
            simp only [List.mem_cons] at hc'
            rcases hc' with rfl | hc'
            · rfl
            · exact hall c' hc'
    · simp only [WriteBytesLoop, hlt, if_false, Option.some.injEq] at hr
      subst hr
      exact ⟨rfl, Or.inl ⟨rfl, by simp⟩⟩

/-- C4. For every byte sequence and every write operation of which each call
either fails or accepts at least one and at most all of the bytes offered,
`WriteBytes` returns within `len(data)` iterations. The calls it made are calls
of the device's `Write`, answered by the device, and the device is left in the
state those calls leave it in. Each call is offered the input from the first
unwritten byte on. Either it returns success, no call failed and the bytes
accepted by the successive calls, concatenated in call order, are the input; or
it returns the error of the last call made, no earlier call failed, and the
bytes accepted before it are a prefix of the input. -/
theorem WriteBytes_writes_all_in_order {σ : Type} (ser : PortHandle σ) (data : List Byte)
    (st : σ) (h : WellBehaved ser) :
    ∃ r, WriteBytes data.length ser data st = some r ∧
      (r.calls, r.st) = deviceWrites ser st (r.calls.map WriteCall.offered) ∧
      (∀ pre c post, r.calls = pre ++ c :: post →
        c.offered = data.drop (accepted pre).length) ∧
      ((r.err = none ∧ (∀ c ∈ r.calls, c.err = none) ∧ accepted r.calls = data) ∨
       (∃ e pre c, r.err = some e ∧ r.calls = pre ++ [c] ∧ c.err = some e ∧
          (∀ c' ∈ pre, c'.err = none) ∧ accepted pre <+: data)) := by
  obtain ⟨r, hr, hres, hshape⟩ :=
    WriteBytesLoop_spec ser data h data.length 0 st (Nat.zero_le _) (by omega)
  refine ⟨r, hr, (WriteBytesLoop_device ser data _ _ _ r hr).1, ?_, ?_⟩
  · intro pre c post hsplit
    simpa using hres pre c post hsplit
  · simpa using hshape

theorem oneByteDevice_wellBehaved : WellBehaved oneByteDevice := by
  intro st p hp _
  cases p with
  | nil => exact absurd rfl hp
  | cons x xs => simp [oneByteDevice]

theorem brokenDevice_wellBehaved : WellBehaved brokenDevice := by
  intro st p _ herr
  simp [brokenDevice] at herr

/-- The chunk `0x41 0x42`, accepted one byte per call, is written as `0x41`
then `0x42`, and these are the bytes the device holds afterwards. On a device
that is gone the first call fails and its error is returned. -/
theorem WriteBytes_writes_all_in_order_witness :
    (WellBehaved oneByteDevice ∧
      ∃ r, WriteBytes 2 oneByteDevice [0x41, 0x42] Wire.idle = some r ∧
        r.err = none ∧
        r.calls.map (fun c => c.offered.take c.n) = [[0x41], [0x42]] ∧
        accepted r.calls = [0x41, 0x42] ∧
        r.st.received = [0x41, 0x42]) ∧
    (WellBehaved brokenDevice ∧
      ∃ r, WriteBytes 1 brokenDevice [0x41] Wire.idle = some r ∧
        r.err = some "device gone" ∧
        r.calls = [WriteCall.mk [0x41] 0 (some "device gone")] ∧
        r.st = Wire.idle) := by
  refine ⟨⟨oneByteDevice_wellBehaved, ?_⟩, ⟨brokenDevice_wellBehaved, ?_⟩⟩
  · obtain ⟨r, hr, -, -, -⟩ :=
      WriteBytes_writes_all_in_order oneByteDevice [0x41, 0x42] Wire.idle
        oneByteDevice_wellBehaved
    have hrun : WriteBytes 2 oneByteDevice [0x41, 0x42] Wire.idle =
        some (WriteBytesResult.mk none [⟨[0x41, 0x42], 1, none⟩, ⟨[0x42], 1, none⟩]
          (Wire.mk none none [0x41, 0x42])) := by
      rfl
    refine ⟨r, hr, ?_⟩
    have hlen : ([0x41, 0x42] : List Byte).length = 2 := rfl
    rw [hlen, hrun] at hr
    cases hr
    exact ⟨rfl, rfl, rfl, rfl⟩
  · obtain ⟨r, hr, -, -, -⟩ :=
      WriteBytes_writes_all_in_order brokenDevice [0x41] Wire.idle brokenDevice_wellBehaved
    have hrun : WriteBytes 1 brokenDevice [0x41] Wire.idle =
        some (WriteBytesResult.mk (some "device gone") [⟨[0x41], 0, some "device gone"⟩]
          Wire.idle) := by
      rfl
    refine ⟨r, hr, ?_⟩
    have hlen : ([0x41] : List Byte).length = 1 := rfl
    rw [hlen, hrun] at hr
    cases hr
    exact ⟨rfl, rfl, rfl⟩

/-! ### HandleSerialData -/

theorem containsText_end (a b : String) : containsText (a ++ b) b := by
  unfold containsText
  rw [String.data_append]
  exact (List.suffix_append _ _).isInfix

theorem containsText_append_right {m x : String} (y : String) (h : containsText m x) :
    containsText (m ++ y) x := by
  unfold containsText at *
  rw [String.data_append]
  exact h.trans (List.prefix_append _ _).isInfix

theorem HandleSerialData_control_returns {σ : Type} (cfg : Bool) (port : SerialPort σ)
    (data : SerialData) (st : σ) (h : data.CTSset ≠ -1 ∨ data.DSRset ≠ -1) (fuel : Nat) :
    (HandleSerialData cfg fuel port data st).isSome = true := by
  unfold HandleSerialData
  by_cases hc : data.CTSset ≠ -1
  · simp [hc]
  · have hd : data.DSRset ≠ -1 := h.resolve_left hc
    simp [hc, hd]

/-- A run on an event that is about CTS: one call of the device's `SetRTS`. -/
theorem HandleSerialData_cts {σ : Type} (cfg : Bool) (fuel : Nat) (port : SerialPort σ)
    (data : SerialData) (st : σ) (hc : data.CTSset ≠ -1) (r : Applied σ)
    (hr : HandleSerialData cfg fuel port data st = some r) :
    r.ops = [PortOp.SetRTS (decide (data.CTSset > 0))
      (port.Port.SetRTS st (decide (data.CTSset > 0))).1] ∧
    r.st = (port.Port.SetRTS st (decide (data.CTSset > 0))).2 ∧
    (r.causes ≠ [] ↔ (port.Port.SetRTS st (decide (data.CTSset > 0))).1 ≠ none) ∧
    (∀ e, (port.Port.SetRTS st (decide (data.CTSset > 0))).1 = some e →
      ∃ msg, r.causes = [msg] ∧ containsText msg port.Label ∧ containsText msg e) := by
  unfold HandleSerialData at hr
  rw [if_pos hc] at hr
  simp only [Option.some.injEq] at hr
  subst hr
  refine ⟨rfl, rfl, ?_, ?_⟩
  · cases (port.Port.SetRTS st (decide (data.CTSset > 0))).1 <;> simp
  · intro e he
    simp only [he]
    exact ⟨_, rfl,
      containsText_append_right _ (containsText_append_right _
        (containsText_append_right _ (containsText_append_right _
          (containsText_end _ _)))),
      containsText_end _ _⟩

/-- A run on an event that is about DSR: one call of the device's `SetDTR`. -/
theorem HandleSerialData_dsr {σ : Type} (cfg : Bool) (fuel : Nat) (port : SerialPort σ)
    (data : SerialData) (st : σ) (hc : data.CTSset = -1) (hd : data.DSRset ≠ -1)
    (r : Applied σ) (hr : HandleSerialData cfg fuel port data st = some r) :
    r.ops = [PortOp.SetDTR (decide (data.DSRset > 0))
      (port.Port.SetDTR st (decide (data.DSRset > 0))).1] ∧
    r.st = (port.Port.SetDTR st (decide (data.DSRset > 0))).2 ∧
    (r.causes ≠ [] ↔ (port.Port.SetDTR st (decide (data.DSRset > 0))).1 ≠ none) ∧
    (∀ e, (port.Port.SetDTR st (decide (data.DSRset > 0))).1 = some e →
      ∃ msg, r.causes = [msg] ∧ containsText msg port.Label ∧ containsText msg e) := by
  unfold HandleSerialData at hr
  rw [if_neg (not_not.mpr hc), if_pos hd] at hr
  simp only [Option.some.injEq] at hr
  subst hr
  refine ⟨rfl, rfl, ?_, ?_⟩
  · cases (port.Port.SetDTR st (decide (data.DSRset > 0))).1 <;> simp
  · intro e he
    simp only [he]
    exact ⟨_, rfl,
      containsText_append_right _ (containsText_append_right _
        (containsText_append_right _ (containsText_append_right _
          (containsText_end _ _)))),
      containsText_end _ _⟩

/-- A run on an event that carries bytes: one `WriteBytes` on the device. -/
theorem HandleSerialData_data {σ : Type} (cfg : Bool) (fuel : Nat) (port : SerialPort σ)
    (data : SerialData) (st : σ) (hc : data.CTSset = -1) (hd : data.DSRset = -1)
    (r : Applied σ) (hr : HandleSerialData cfg fuel port data st = some r) :
    ∃ w, WriteBytes fuel port.Port data.Data st = some w ∧
      r.ops = [PortOp.WriteBytes data.Data w.calls w.err] ∧ r.st = w.st ∧
      (r.causes ≠ [] ↔ w.err ≠ none) ∧
      (∀ e, w.err = some e →
        ∃ msg, r.causes = [msg] ∧ containsText msg port.Label ∧ containsText msg e) := by
  unfold HandleSerialData at hr
  rw [if_neg (not_not.mpr hc), if_neg (not_not.mpr hd)] at hr
  simp only [Option.map_eq_some'] at hr
  obtain ⟨w, hw, hrw⟩ := hr
  subst hrw
  refine ⟨w, hw, rfl, rfl, ?_, ?_⟩
  · cases w.err <;> simp
  · intro e he
    simp only [he]
    exact ⟨_, rfl,
      containsText_append_right _ (containsText_append_right _ (containsText_end _ _)),
      containsText_end _ _⟩

/-- On a well-behaved device a run on an event that carries bytes returns
within `len(data.Data)` iterations of the write loop. -/
theorem HandleSerialData_data_returns {σ : Type} (cfg : Bool) (port : SerialPort σ)
    (data : SerialData) (st : σ) (h : WellBehaved port.Port) :
    (HandleSerialData cfg data.Data.length port data st).isSome = true := by
  by_cases hc : data.CTSset ≠ -1
  · exact HandleSerialData_control_returns cfg port data st (Or.inl hc) _
  · by_cases hd : data.DSRset ≠ -1
    · exact HandleSerialData_control_returns cfg port data st (Or.inr hd) _
    · obtain ⟨w, hw, -, -⟩ :=
        WriteBytesLoop_spec port.Port data.Data h data.Data.length 0 st (Nat.zero_le _)
          (by omega)
      unfold HandleSerialData
      rw [if_neg hc, if_neg hd]
      simp [WriteBytes, hw]

theorem ctsEvent_value (s : Bool) : decide ((ctsEvent s).CTSset > 0) = s := by
  cases s <;> simp [ctsEvent]

theorem dsrEvent_value (s : Bool) : decide ((dsrEvent s).DSRset > 0) = s := by
  cases s <;> simp [dsrEvent]

theorem ctsEvent_cts (s : Bool) : (ctsEvent s).CTSset ≠ -1 := by
  cases s <;> simp [ctsEvent]

theorem dsrEvent_dsr (s : Bool) : (dsrEvent s).DSRset ≠ -1 := by
  cases s <;> simp [dsrEvent]

/-- C3. `HandleSerialData` attempts exactly one operation on the destination
port. Whenever it returns, the operations it made are a single one. For a CTS
change with new state `s` that one is the device's `SetRTS` with `s`: its
outcome is the device's answer and the device is left in the state that one
call leaves it in. For a DSR change with new state `s` it is, in the same way,
the device's `SetDTR` with `s`. For a data chunk it is one `WriteBytes` of the
chunk's bytes: the calls of the device's `Write` it holds were answered by the
device and the device is left in the state they leave it in, no line having
been set. It returns for every control-line change, and it returns for a data
chunk when the destination's write is well behaved, each call then being
offered the chunk from the first unwritten byte on and all the bytes having
been accepted unless a write failed. -/
theorem HandleSerialData_one_operation {σ : Type} (cfg : Bool) (port : SerialPort σ)
    (data : SerialData) (st : σ) :
    (∀ fuel r, HandleSerialData cfg fuel port data st = some r →
      r.ops.length = 1 ∧
      (∀ s, data = ctsEvent s →
        r.ops = [PortOp.SetRTS s (port.Port.SetRTS st s).1] ∧
          r.st = (port.Port.SetRTS st s).2) ∧
      (∀ s, data = dsrEvent s →
        r.ops = [PortOp.SetDTR s (port.Port.SetDTR st s).1] ∧
          r.st = (port.Port.SetDTR st s).2) ∧
      (∀ bytes, data = dataEvent bytes →
        ∃ calls err, r.ops = [PortOp.WriteBytes bytes calls err] ∧
          (calls, r.st) = deviceWrites port.Port st (calls.map WriteCall.offered))) ∧
    ((data.CTSset ≠ -1 ∨ data.DSRset ≠ -1) →
      ∀ fuel, (HandleSerialData cfg fuel port data st).isSome = true) ∧
    (WellBehaved port.Port →
      ∃ r, HandleSerialData cfg data.Data.length port data st = some r ∧
        ∀ bytes, data = dataEvent bytes → ∃ calls err,
          r.ops = [PortOp.WriteBytes bytes calls err] ∧
            (calls, r.st) = deviceWrites port.Port st (calls.map WriteCall.offered) ∧
            (∀ pre c post, calls = pre ++ c :: post →
              c.offered = bytes.drop (accepted pre).length) ∧
            (err = none → accepted calls = bytes)) := by
  refine ⟨?_, HandleSerialData_control_returns cfg port data st, ?_⟩
  · intro fuel r hr
    by_cases hc : data.CTSset ≠ -1
    · obtain ⟨hops, hst, -, -⟩ := HandleSerialData_cts cfg fuel port data st hc r hr
      refine ⟨by rw [hops]; rfl, ?_, ?_, ?_⟩
      · intro s hs
        subst hs
        rw [ctsEvent_value] at hops hst
        exact ⟨hops, hst⟩
      · intro s hs
        subst hs
        exact absurd rfl hc
      · intro bytes hs
        subst hs
        exact absurd rfl hc
    · have hc' : data.CTSset = -1 := not_not.mp hc
      by_cases hd : data.DSRset ≠ -1
      · obtain ⟨hops, hst, -, -⟩ := HandleSerialData_dsr cfg fuel port data st hc' hd r hr
        refine ⟨by rw [hops]; rfl, ?_, ?_, ?_⟩
        · intro s hs
          subst hs
          exact absurd hc' (ctsEvent_cts s)
        · intro s hs
          subst hs
          rw [dsrEvent_value] at hops hst
          exact ⟨hops, hst⟩
        · intro bytes hs
          subst hs
          exact absurd rfl hd
      · have hd' : data.DSRset = -1 := not_not.mp hd
        obtain ⟨w, hw, hops, hst, -, -⟩ :=
          HandleSerialData_data cfg fuel port data st hc' hd' r hr
        refine ⟨by rw [hops]; rfl, ?_, ?_, ?_⟩
        · intro s hs
          subst hs
          exact absurd hc' (ctsEvent_cts s)
        · intro s hs
          subst hs
          exact absurd hd' (dsrEvent_dsr s)
        · intro bytes hs
          subst hs
          refine ⟨w.calls, w.err, hops, ?_⟩
          rw [hst]
          exact (WriteBytesLoop_device port.Port _ _ _ _ w hw).1
  · intro h
    obtain ⟨r, hr⟩ := Option.isSome_iff_exists.mp
      (HandleSerialData_data_returns cfg port data st h)
    refine ⟨r, hr, ?_⟩
    intro bytes hs
    subst hs
    obtain ⟨w, hw, hops, hst, -, -⟩ :=
      HandleSerialData_data cfg _ port (dataEvent bytes) st rfl rfl r hr
    obtain ⟨w', hw', hres, hshape⟩ :=
      WriteBytesLoop_spec port.Port bytes h bytes.length 0 st (Nat.zero_le _) (by omega)
    have hww : w' = w := by
      have h1 : WriteBytesLoop port.Port bytes bytes.length 0 st = some w := hw
      rw [hw'] at h1
      exact Option.some.inj h1
    subst hww
    refine ⟨w'.calls, w'.err, hops, ?_, ?_, ?_⟩
    · rw [hst]
      exact (WriteBytesLoop_device port.Port _ _ _ _ w' hw').1
    · intro pre c post hsplit
      simpa using hres pre c post hsplit
    · intro he
      rcases hshape with ⟨-, -, hacc⟩ | ⟨e, _, _, he', -⟩
      · simpa using hacc
      · rw [he] at he'
        exact absurd he' (by simp)

/-- On a device that accepts one byte per call: the chunk `0x41 0x42` is
written in two calls and is what the device holds afterwards, no line being
set; a CTS change to set sets RTS and a DSR change to clear clears DTR, no
byte being written. -/
theorem HandleSerialData_one_operation_witness :
    (WellBehaved endpointBOneByte.Port ∧
      ∃ r, HandleSerialData false 2 endpointBOneByte (dataEvent [0x41, 0x42]) Wire.idle
          = some r ∧
        (∃ calls, r.ops = [PortOp.WriteBytes [0x41, 0x42] calls none] ∧
          accepted calls = [0x41, 0x42]) ∧
        r.st = Wire.mk none none [0x41, 0x42]) ∧
    (∃ r, HandleSerialData false 0 endpointBOneByte (ctsEvent true) Wire.idle = some r ∧
      r.ops = [PortOp.SetRTS true none] ∧ r.st = Wire.mk (some true) none []) ∧
    (∃ r, HandleSerialData false 0 endpointBOneByte (dsrEvent false) Wire.idle = some r ∧
      r.ops = [PortOp.SetDTR false none] ∧ r.st = Wire.mk none (some false) []) := by
  refine ⟨⟨oneByteDevice_wellBehaved, ?_⟩, ?_, ?_⟩
  · obtain ⟨r, hr, -⟩ :=
      (HandleSerialData_one_operation false endpointBOneByte
        (dataEvent [0x41, 0x42]) Wire.idle).2.2 oneByteDevice_wellBehaved
    refine ⟨r, hr, ?_⟩
    have hrun : HandleSerialData false 2 endpointBOneByte (dataEvent [0x41, 0x42]) Wire.idle =
        some ⟨[PortOp.WriteBytes [0x41, 0x42]
            [⟨[0x41, 0x42], 1, none⟩, ⟨[0x42], 1, none⟩] none],
          [], [LogLine.Data "A -> B" [0x41, 0x42]], Wire.mk none none [0x41, 0x42]⟩ := by
      rfl
    have hlen : (dataEvent [0x41, 0x42]).Data.length = 2 := rfl
    rw [hlen, hrun] at hr
    cases hr
    exact ⟨⟨_, rfl, rfl⟩, rfl⟩
  · have hrun : HandleSerialData false 0 endpointBOneByte (ctsEvent true) Wire.idle =
        some ⟨[PortOp.SetRTS true none], [], [], Wire.mk (some true) none []⟩ := by
      rfl
    exact ⟨_, hrun,
      ((HandleSerialData_one_operation false endpointBOneByte (ctsEvent true) Wire.idle).1
        0 _ hrun).2.1 true rfl⟩
  · have hrun : HandleSerialData false 0 endpointBOneByte (dsrEvent false) Wire.idle =
        some ⟨[PortOp.SetDTR false none], [], [], Wire.mk none (some false) []⟩ := by
      rfl
    exact ⟨_, hrun,
      ((HandleSerialData_one_operation false endpointBOneByte (dsrEvent false) Wire.idle).1
        0 _ hrun).2.2.1 false rfl⟩

/-- C7. Whenever `HandleSerialData` returns it has attempted one operation on
the destination, and it reports a cause if and only if that operation failed;
it then reports exactly one cause, whose message contains the destination's
label and the error of the operation. The operation and its outcome are the
device's: for an event about CTS the outcome is the answer of the device's
`SetRTS`, for an event about DSR that of the device's `SetDTR`, and for a data
chunk the calls of the write are the calls the device answered, the error being
that of the last of them, the only one that failed. It returns for every
control-line change, and for a data chunk when the destination's write is well
behaved; when it then reports no cause, the device has accepted all the bytes
of the chunk. -/
theorem HandleSerialData_reports_failure {σ : Type} (cfg : Bool) (port : SerialPort σ)
    (data : SerialData) (st : σ) :
    (∀ fuel r, HandleSerialData cfg fuel port data st = some r →
      ∃ op, r.ops = [op] ∧
        (r.causes ≠ [] ↔ op.err ≠ none) ∧
        (∀ e, op.err = some e →
          ∃ msg, r.causes = [msg] ∧ containsText msg port.Label ∧ containsText msg e) ∧
        (data.CTSset ≠ -1 →
          op = PortOp.SetRTS (decide (data.CTSset > 0))
            (port.Port.SetRTS st (decide (data.CTSset > 0))).1) ∧
        (data.CTSset = -1 → data.DSRset ≠ -1 →
          op = PortOp.SetDTR (decide (data.DSRset > 0))
            (port.Port.SetDTR st (decide (data.DSRset > 0))).1) ∧
        (data.CTSset = -1 → data.DSRset = -1 →
          ∃ calls err, op = PortOp.WriteBytes data.Data calls err ∧
            (calls, r.st) = deviceWrites port.Port st (calls.map WriteCall.offered) ∧
            ((err = none ∧ ∀ c ∈ calls, c.err = none) ∨
             (∃ e pre c, err = some e ∧ calls = pre ++ [c] ∧ c.err = some e ∧
                ∀ c' ∈ pre, c'.err = none)))) ∧
    ((data.CTSset ≠ -1 ∨ data.DSRset ≠ -1) →
      ∀ fuel, (HandleSerialData cfg fuel port data st).isSome = true) ∧
    (WellBehaved port.Port →
      ∃ r, HandleSerialData cfg data.Data.length port data st = some r ∧
        (data.CTSset = -1 → data.DSRset = -1 → r.causes = [] →
          ∃ calls, r.ops = [PortOp.WriteBytes data.Data calls none] ∧
            accepted calls = data.Data)) := by
  refine ⟨?_, HandleSerialData_control_returns cfg port data st, ?_⟩
  · intro fuel r hr
    by_cases hc : data.CTSset ≠ -1
    · obtain ⟨hops, -, hiff, hmsg⟩ := HandleSerialData_cts cfg fuel port data st hc r hr
      exact ⟨_, hops, hiff, hmsg, fun _ => rfl, fun h => absurd h hc, fun h => absurd h hc⟩
    · have hc' : data.CTSset = -1 := not_not.mp hc
      by_cases hd : data.DSRset ≠ -1
      · obtain ⟨hops, -, hiff, hmsg⟩ := HandleSerialData_dsr cfg fuel port data st hc' hd r hr
        exact ⟨_, hops, hiff, hmsg, fun h => absurd hc' h, fun _ _ => rfl,
          fun _ h => absurd h hd⟩
      · have hd' : data.DSRset = -1 := not_not.mp hd
        obtain ⟨w, hw, hops, hst, hiff, hmsg⟩ :=
          HandleSerialData_data cfg fuel port data st hc' hd' r hr
        obtain ⟨hdev, hshape⟩ := WriteBytesLoop_device port.Port _ _ _ _ w hw
        refine ⟨_, hops, hiff, hmsg, fun h => absurd hc' h, fun _ h => absurd hd' h, ?_⟩
        intro _ _
        refine ⟨w.calls, w.err, rfl, ?_, hshape⟩
        rw [hst]
        exact hdev
  · intro h
    obtain ⟨r, hr⟩ := Option.isSome_iff_exists.mp
      (HandleSerialData_data_returns cfg port data st h)
    refine ⟨r, hr, ?_⟩
    intro hc hd hcauses
    obtain ⟨w, hw, hops, -, hiff, -⟩ :=
      HandleSerialData_data cfg _ port data st hc hd r hr
    obtain ⟨w', hw', -, hshape⟩ :=
      WriteBytesLoop_spec port.Port data.Data h data.Data.length 0 st (Nat.zero_le _)
        (by omega)
    have hww : w' = w := by
      have h1 : WriteBytesLoop port.Port data.Data data.Data.length 0 st = some w := hw
      rw [hw'] at h1
      exact Option.some.inj h1
    subst hww
    have herr : w'.err = none := by
      by_contra hne
      exact (hiff.mpr hne) hcauses
    refine ⟨w'.calls, ?_, ?_⟩
    · rw [hops, herr]
    · rcases hshape with ⟨-, -, hacc⟩ | ⟨e, _, _, he', -⟩
      · simpa using hacc
      · rw [herr] at he'
        exact absurd he' (by simp)

/-- On a device that is gone: a write error while forwarding data from A to B
yields one cause, which names B's label, and so does a failure to set RTS. -/
theorem HandleSerialData_reports_failure_witness :
    (∃ r, HandleSerialData false 1 endpointB (dataEvent [0x41]) Wire.idle = some r ∧
      r.causes = ["error writing data to B: device gone"] ∧
      containsText "error writing data to B: device gone" endpointB.Label) ∧
    (∃ r, HandleSerialData false 0 endpointB (ctsEvent true) Wire.idle = some r ∧
      r.causes = ["error setting RTS on B port to value true: device gone"] ∧
      containsText "error setting RTS on B port to value true: device gone"
        endpointB.Label) := by
  constructor
  · have hrun : HandleSerialData false 1 endpointB (dataEvent [0x41]) Wire.idle =
        some ⟨[PortOp.WriteBytes [0x41] [⟨[0x41], 0, some "device gone"⟩]
            (some "device gone")],
          ["error writing data to B: device gone"], [], Wire.idle⟩ := by
      rfl
    obtain ⟨op, hop, -, hmsg, -⟩ :=
      (HandleSerialData_reports_failure false endpointB (dataEvent [0x41]) Wire.idle).1
        1 _ hrun
    simp only [List.cons.injEq, and_true] at hop
    subst hop
    obtain ⟨msg, hcauses, hlabel, -⟩ := hmsg "device gone" rfl
    simp only [List.cons.injEq, and_true] at hcauses
    subst hcauses
    exact ⟨_, hrun, rfl, hlabel⟩
  · have hrun : HandleSerialData false 0 endpointB (ctsEvent true) Wire.idle =
        some ⟨[PortOp.SetRTS true (some "device gone")],
          ["error setting RTS on B port to value true: device gone"], [], Wire.idle⟩ := by
      rfl
    obtain ⟨op, hop, -, hmsg, -⟩ :=
      (HandleSerialData_reports_failure false endpointB (ctsEvent true) Wire.idle).1
        0 _ hrun
    simp only [List.cons.injEq, and_true] at hop
    subst hop
    obtain ⟨msg, hcauses, hlabel, -⟩ := hmsg "device gone" rfl
    simp only [List.cons.injEq, and_true] at hcauses
    subst hcauses
    exact ⟨_, hrun, rfl, hlabel⟩

/-! ### MainLoop -/

theorem MainLoop_events_then_cause (events : List (Side × SerialData)) (err : String)
    (later : List Msg) :
    MainLoop (events.map (fun x => Msg.ofEvent x.1 x.2) ++ Msg.errorOccured err :: later) =
      (events.map (fun x => { port := x.1.opposite, data := x.2 }), some err) := by
  induction events with
  | nil => rfl
  | cons x rest ih =>
    rcases x with ⟨src, data⟩
    cases src
    · show MainLoop (Msg.leftToRight data ::
        (rest.map (fun x => Msg.ofEvent x.1 x.2) ++ Msg.errorOccured err :: later)) = _
      simp only [MainLoop, ih]
      rfl
    · show MainLoop (Msg.rightToLeft data ::
        (rest.map (fun x => Msg.ofEvent x.1 x.2) ++ Msg.errorOccured err :: later)) = _
      simp only [MainLoop, ih]
      rfl

/-- C6. With `MainLoop` consuming a sequence of messages: every event read
before the first cause is dispatched exactly once, in the order read, a
left-port event to the right port's applier and a right-port event to the left
port's, never to the port it was observed on; on the first cause `MainLoop`
returns exactly that cause and dispatches nothing read after it. -/
theorem MainLoop_dispatches_to_opposite (events : List (Side × SerialData)) (err : String)
    (later : List Msg) :
    MainLoop (events.map (fun x => Msg.ofEvent x.1 x.2) ++ Msg.errorOccured err :: later) =
      (events.map (fun x => { port := x.1.opposite, data := x.2 }), some err) ∧
    ∀ x ∈ events, x.1.opposite ≠ x.1 := by
  refine ⟨MainLoop_events_then_cause events err later, ?_⟩
  intro x _
  cases x.1 <;> simp [Side.opposite]

/-! ### ReadBytes -/

theorem readInto_of_fits (buf bytes : List Byte) (h : bytes.length ≤ buf.length) :
    readInto buf bytes = (bytes ++ buf.drop bytes.length, bytes.length) := by
  simp [readInto, List.take_of_length_le h]

theorem readInto_length (buf bytes : List Byte) (h : bytes.length ≤ buf.length) :
    (readInto buf bytes).1.length = buf.length := by
  rw [readInto_of_fits buf bytes h]
  simp
  omega

theorem bytes_after_read (buf bytes : List Byte) (h : bytes.length ≤ buf.length) :
    BufSlice.bytes ⟨0, bytes.length⟩ (readInto buf bytes).1 = bytes := by
  rw [readInto_of_fits buf bytes h]
  simp [BufSlice.bytes]

/-- Two reads in a row: the event sent after the first read and the buffer
after each of the two reads. -/
theorem ReadBytes_two_reads (size : Nat) (b1 b2 : List Byte) (h1 : 0 < b1.length)
    (h12 : b1.length ≤ b2.length) (h2 : b2.length ≤ size) :
    (ReadBytes size [Except.ok b1]).events =
      [{ CTSset := -1, DSRset := -1, Data := { off := 0, len := b1.length } }] ∧
    (ReadBytes size [Except.ok b1, Except.ok b2]).events.head? =
      some { CTSset := -1, DSRset := -1, Data := { off := 0, len := b1.length } } ∧
    (SerialDataRef.mk (-1) (-1) ⟨0, b1.length⟩).deref (ReadBytes size [Except.ok b1]).buf =
      dataEvent b1 ∧
    (SerialDataRef.mk (-1) (-1) ⟨0, b1.length⟩).deref
        (ReadBytes size [Except.ok b1, Except.ok b2]).buf =
      dataEvent (b2.take b1.length) := by
  have hfit1 : b1.length ≤ (List.replicate size (0 : Byte)).length := by
    simp
    omega
  have hfit2 : b2.length ≤ (readInto (List.replicate size (0 : Byte)) b1).1.length := by
    rw [readInto_length _ _ hfit1]
    simpa using h2
  have hb1 := bytes_after_read _ _ hfit1
  have hb2 := bytes_after_read _ _ hfit2
  have hn1 : (readInto (List.replicate size (0 : Byte)) b1).2 = b1.length := by
    rw [readInto_of_fits _ _ hfit1]
  refine ⟨?_, ?_, ?_, ?_⟩
  · simp [ReadBytes, ReadBytesLoop, hn1, h1]
  · simp [ReadBytes, ReadBytesLoop, hn1, h1]
  · simp only [ReadBytes, ReadBytesLoop, SerialDataRef.deref, hb1, dataEvent]
  · simp only [ReadBytes, ReadBytesLoop, SerialDataRef.deref, dataEvent]
    congr 1
    have : BufSlice.bytes ⟨0, b1.length⟩
        (readInto (readInto (List.replicate size (0 : Byte)) b1).1 b2).1 =
        (BufSlice.bytes ⟨0, b2.length⟩
          (readInto (readInto (List.replicate size (0 : Byte)) b1).1 b2).1).take b1.length := by
      simp only [BufSlice.bytes, List.drop_zero, List.take_take]
      rw [Nat.min_eq_left h12]
    rw [this, hb2]

/-- C5 fails on the code. The reader, with the default buffer of 4096 bytes,
reads `0x41 0x42` and then `0x43 0x44`. The first event sent is the slice
`buf[:2]`; it denotes `0x41 0x42` when it is sent and `0x43 0x44` once the
second read has stored its bytes in the reused buffer. -/
theorem ReadBytes_event_aliases_buffer :
    (ReadBytes 4096 [Except.ok [0x41, 0x42]]).events =
      [{ CTSset := -1, DSRset := -1, Data := { off := 0, len := 2 } }] ∧
    (ReadBytes 4096 [Except.ok [0x41, 0x42], Except.ok [0x43, 0x44]]).events.head? =
      some { CTSset := -1, DSRset := -1, Data := { off := 0, len := 2 } } ∧
    (SerialDataRef.mk (-1) (-1) ⟨0, 2⟩).deref (ReadBytes 4096 [Except.ok [0x41, 0x42]]).buf =
      dataEvent [0x41, 0x42] ∧
    (SerialDataRef.mk (-1) (-1) ⟨0, 2⟩).deref
        (ReadBytes 4096 [Except.ok [0x41, 0x42], Except.ok [0x43, 0x44]]).buf =
      dataEvent [0x43, 0x44] :=
  ReadBytes_two_reads 4096 [0x41, 0x42] [0x43, 0x44] (by decide) (by decide) (by decide)

/-! ### Shutdown -/

theorem sum_map_set {α : Type} (f : α → Nat) (l : List α) :
    ∀ (i : Nat) (a b : α), l[i]? = some a →
      ((l.set i b).map f).sum + f a = (l.map f).sum + f b := by
  induction l with
  | nil => intro i a b h; simp at h
  | cons x xs ih =>
    intro i a b h
    cases i with
    | zero =>
      simp at h
      subst h
      simp
      omega
    | succ i =>
      simp at h
      have := ih i a b h
      simp only [List.set_cons_succ, List.map_cons, List.sum_cons]
      omega

theorem getElem?_zero_set {α : Type} (l : List α) (i : Nat) (a b c : α)
    (h0 : l[0]? = some a) (hi : l[i]? = some b) (hne : a ≠ b) :
    (l.set i c)[0]? = some a := by
  cases i with
  | zero => rw [h0] at hi; exact absurd (Option.some.inj hi) hne
  | succ i =>
    cases l with
    | nil => simp at h0
    | cons x xs => simpa using h0

/-- While the main goroutine is out of `MainLoop` and the left monitor stands at
a send, no move changes either fact, and the counter stays accounted for. -/
theorem Hung_step (pc : WorkerPC) (hpc : pc = WorkerPC.SendEvent ∨ pc = WorkerPC.SendErr)
    (s s' : Run) (a : Action) (h : Hung pc s) (hstep : step s a = some s') : Hung pc s' := by
  obtain ⟨hmain, hw0, hacc⟩ := h
  have hsel : s.main ≠ MainPC.Select := by
    rcases hmain with h | h <;> rw [h] <;> decide
  have hheld : pc.held = 1 := by rcases hpc with h | h <;> rw [h] <;> rfl
  have hwg : 1 ≤ (s.workers.map WorkerPC.held).sum := by
    have := sum_map_set WorkerPC.held s.workers 0 pc WorkerPC.Start hw0
    rw [hheld] at this
    simp [WorkerPC.held] at this
    omega
  unfold Accounted at hacc
  cases a with
  | workerAdd i =>
    simp only [step] at hstep
    split at hstep
    · rename_i hi
      cases hstep
      have hne : pc ≠ WorkerPC.Start := by rcases hpc with h | h <;> rw [h] <;> decide
      refine ⟨hmain, getElem?_zero_set _ _ _ _ _ hw0 hi hne, ?_⟩
      have := sum_map_set WorkerPC.held s.workers i _ WorkerPC.Loop hi
      simp only [Accounted, WorkerPC.held] at this ⊢
      omega
    · cases hstep
  | workerQuiet i =>
    simp only [step] at hstep
    split at hstep
    · rename_i hi
      cases hstep
      have hne : pc ≠ WorkerPC.Loop := by rcases hpc with h | h <;> rw [h] <;> decide
      refine ⟨hmain, getElem?_zero_set _ _ _ _ _ hw0 hi hne, ?_⟩
      have := sum_map_set WorkerPC.held s.workers i _ WorkerPC.Pause hi
      simp only [Accounted, WorkerPC.held] at this ⊢
      omega
    · cases hstep
  | workerEmit i =>
    simp only [step] at hstep
    split at hstep
    · rename_i hi
      cases hstep
      have hne : pc ≠ WorkerPC.Loop := by rcases hpc with h | h <;> rw [h] <;> decide
      refine ⟨hmain, getElem?_zero_set _ _ _ _ _ hw0 hi hne, ?_⟩
      have := sum_map_set WorkerPC.held s.workers i _ WorkerPC.SendEvent hi
      simp only [Accounted, WorkerPC.held] at this ⊢
      omega
    · cases hstep
  | workerFail i =>
    simp only [step] at hstep
    split at hstep
    · rename_i hi
      cases hstep
      have hne : pc ≠ WorkerPC.Loop := by rcases hpc with h | h <;> rw [h] <;> decide
      refine ⟨hmain, getElem?_zero_set _ _ _ _ _ hw0 hi hne, ?_⟩
      have := sum_map_set WorkerPC.held s.workers i _ WorkerPC.SendErr hi
      simp only [Accounted, WorkerPC.held] at this ⊢
      omega
    · cases hstep
  | workerDelivered i more =>
    simp only [step] at hstep
    split at hstep
    · rename_i hi
      exact absurd hi.2 hsel
    · cases hstep
  | workerReported i =>
    simp only [step] at hstep
    split at hstep
    · rename_i hi
      exact absurd hi.2 hsel
    · cases hstep
  | workerTick i =>
    simp only [step] at hstep
    split at hstep
    · rename_i hi
      cases hstep
      have hne : pc ≠ WorkerPC.Pause := by rcases hpc with h | h <;> rw [h] <;> decide
      refine ⟨hmain, getElem?_zero_set _ _ _ _ _ hw0 hi hne, ?_⟩
      have := sum_map_set WorkerPC.held s.workers i _ WorkerPC.Loop hi
      simp only [Accounted, WorkerPC.held] at this ⊢
      omega
    · cases hstep
  | workerCancelled i =>
    simp only [step] at hstep
    split at hstep
    · rename_i hi
      cases hstep
      have hne : pc ≠ WorkerPC.Pause := by rcases hpc with h | h <;> rw [h] <;> decide
      refine ⟨hmain, getElem?_zero_set _ _ _ _ _ hw0 hi.1 hne, ?_⟩
      have := sum_map_set WorkerPC.held s.workers i _ WorkerPC.Done hi.1
      simp only [Accounted, WorkerPC.held] at this ⊢
      omega
    · cases hstep
  | userKey =>
    simp only [step] at hstep
    split at hstep
    · cases hstep
      exact ⟨hmain, hw0, hacc⟩
    · cases hstep
  | userReported =>
    simp only [step] at hstep
    split at hstep
    · rename_i hi
      exact absurd hi.2 hsel
    · cases hstep
  | handlerLineSet j ok =>
    simp only [step] at hstep
    split at hstep
    · rename_i hj
      cases hstep
      refine ⟨hmain, hw0, ?_⟩
      have := sum_map_set HandlerPC.held s.handlers j _
        (if ok then HandlerPC.Done else HandlerPC.SendErr) hj
      cases ok <;> simp only [Accounted, HandlerPC.held] at this ⊢ <;> simp at this ⊢ <;> omega
    · cases hstep
  | handlerWriteBegin j =>
    simp only [step] at hstep
    split at hstep
    · rename_i hj
      cases hstep
      refine ⟨hmain, hw0, ?_⟩
      have := sum_map_set HandlerPC.held s.handlers j _ HandlerPC.Writing hj
      simp only [Accounted, HandlerPC.held] at this ⊢
      omega
    · cases hstep
  | handlerWriteEnd j ok =>
    simp only [step] at hstep
    split at hstep
    · rename_i hj
      cases hstep
      refine ⟨hmain, hw0, ?_⟩
      have := sum_map_set HandlerPC.held s.handlers j _
        (if ok then HandlerPC.Done else HandlerPC.SendErr) hj
      cases ok <;> simp only [Accounted, HandlerPC.held] at this ⊢ <;> simp at this ⊢ <;> omega
    · cases hstep
  | handlerReported j =>
    simp only [step] at hstep
    split at hstep
    · rename_i hj
      exact absurd hj.2 hsel
    · cases hstep
  | mainCancel =>
    simp only [step] at hstep
    split at hstep
    · cases hstep
      exact ⟨Or.inr rfl, hw0, hacc⟩
    · cases hstep
  | mainWaitDone =>
    simp only [step] at hstep
    split at hstep
    · rename_i hi
      omega
    · cases hstep

theorem Hung_exec (pc : WorkerPC) (hpc : pc = WorkerPC.SendEvent ∨ pc = WorkerPC.SendErr)
    (acts : List Action) : ∀ s s' : Run, Hung pc s → exec s acts = some s' → Hung pc s' := by
  induction acts with
  | nil =>
    intro s s' h hex
    simp only [exec, Option.some.injEq] at hex
    exact hex ▸ h
  | cons a rest ih =>
    intro s s' h hex
    simp only [exec, Option.bind_eq_some] at hex
    obtain ⟨s1, hs1, hrest⟩ := hex
    exact ih s1 s' (Hung_step pc hpc s s1 a h hs1) hrest

/-- C10 fails on the code. Two schedules of one run. In the first the left
monitor has an event to send when the user's key press is the first cause
received; in the second its poll has failed, so that it reports a second
cause. After `ctxCancel()` the main goroutine is at `wg.Wait()`, and whatever
the goroutines do from there on the monitor stays at its send and the main
goroutine never gets past `wg.Wait()`. -/
theorem shutdown_hangs_on_pending_send :
    (∃ s, exec start [Action.workerAdd 0, Action.workerEmit 0, Action.userKey,
          Action.userReported, Action.mainCancel] = some s ∧
        s.main = MainPC.Waiting ∧ s.cancelled = true ∧
        ∀ acts s', exec s acts = some s' →
          s'.main ≠ MainPC.Exited ∧ s'.workers[0]? = some WorkerPC.SendEvent) ∧
    (∃ s, exec start [Action.workerAdd 0, Action.workerFail 0, Action.userKey,
          Action.userReported, Action.mainCancel] = some s ∧
        s.main = MainPC.Waiting ∧ s.cancelled = true ∧
        ∀ acts s', exec s acts = some s' →
          s'.main ≠ MainPC.Exited ∧ s'.workers[0]? = some WorkerPC.SendErr) := by
  constructor
  · refine ⟨Run.mk MainPC.Waiting true 1
        [WorkerPC.SendEvent, WorkerPC.Start, WorkerPC.Start, WorkerPC.Start] UserPC.Done [],
        by decide, rfl, rfl, ?_⟩
    intro acts s' hex
    have hstart : Hung WorkerPC.SendEvent (Run.mk MainPC.Waiting true 1
        [WorkerPC.SendEvent, WorkerPC.Start, WorkerPC.Start, WorkerPC.Start] UserPC.Done []) :=
      ⟨Or.inr rfl, rfl, rfl⟩
    have h := Hung_exec WorkerPC.SendEvent (Or.inl rfl) acts _ s' hstart hex
    refine ⟨?_, h.2.1⟩
    rcases h.1 with hm | hm <;> rw [hm] <;> decide
  · refine ⟨Run.mk MainPC.Waiting true 1
        [WorkerPC.SendErr, WorkerPC.Start, WorkerPC.Start, WorkerPC.Start] UserPC.Done [],
        by decide, rfl, rfl, ?_⟩
    intro acts s' hex
    have hstart : Hung WorkerPC.SendErr (Run.mk MainPC.Waiting true 1
        [WorkerPC.SendErr, WorkerPC.Start, WorkerPC.Start, WorkerPC.Start] UserPC.Done []) :=
      ⟨Or.inr rfl, rfl, rfl⟩
    have h := Hung_exec WorkerPC.SendErr (Or.inr rfl) acts _ s' hstart hex
    refine ⟨?_, h.2.1⟩
    rcases h.1 with hm | hm <;> rw [hm] <;> decide

/-! ### The configuration parser -/

theorem spec_matchChar (p : Char → Bool) :
    Describes (matchChar p) (fun w g => ∃ c, p c = true ∧ w = [c] ∧ g = []) := by
  intro s m
  cases s with
  | nil =>
    simp only [matchChar, List.not_mem_nil, false_iff]
    rintro ⟨⟨c, -, hw, -⟩, hs⟩
    rw [hw] at hs
    simp at hs
  | cons c cs =>
    rcases m with ⟨w, g, r⟩
    by_cases hp : p c = true
    · simp only [matchChar, hp, if_true, List.mem_singleton, Match.mk.injEq]
      constructor
      · rintro ⟨rfl, rfl, rfl⟩
        exact ⟨⟨c, hp, rfl, rfl⟩, rfl⟩
      · rintro ⟨⟨c', -, hw, hg⟩, hs⟩
        subst hw hg
        simp at hs
        obtain ⟨rfl, rfl⟩ := hs
        exact ⟨rfl, rfl, rfl⟩
    · have hpf : p c = false := by simpa using hp
      simp only [matchChar, hpf, Bool.false_eq_true, if_false, List.not_mem_nil, false_iff]
      rintro ⟨⟨c', hc', hw, -⟩, hs⟩
      subst hw
      simp at hs
      rw [hs.1] at hp
      exact hp hc'

theorem spec_andThen {a b : List Char → List Match} {La Lb : List Char → List (List Char) → Prop}
    (ha : Describes a La) (hb : Describes b Lb) :
    Describes (fun s => andThen (a s) b)
      (fun w g => ∃ wa ga wb gb, La wa ga ∧ Lb wb gb ∧ w = wa ++ wb ∧ g = ga ++ gb) := by
  intro s m
  simp only [andThen, List.mem_flatMap, List.mem_map]
  constructor
  · rintro ⟨m1, hm1, m2, hm2, rfl⟩
    obtain ⟨h1, hs1⟩ := (ha s m1).mp hm1
    obtain ⟨h2, hs2⟩ := (hb m1.rest m2).mp hm2
    refine ⟨⟨_, _, _, _, h1, h2, rfl, rfl⟩, ?_⟩
    simp only [List.append_assoc]
    rw [← hs2]
    exact hs1
  · rintro ⟨⟨wa, ga, wb, gb, h1, h2, hw, hg⟩, hs⟩
    refine ⟨⟨wa, ga, wb ++ m.rest⟩, (ha s _).mpr ⟨h1, ?_⟩, ⟨wb, gb, m.rest⟩,
      (hb _ _).mpr ⟨h2, rfl⟩, ?_⟩
    · simp only [hs, hw, List.append_assoc]
    · rcases m with ⟨w, g, r⟩
      simp only at hw hg
      simp only [hw, hg]

theorem spec_alt {a b : List Char → List Match} {La Lb : List Char → List (List Char) → Prop}
    (ha : Describes a La) (hb : Describes b Lb) :
    Describes (fun s => a s ++ b s) (fun w g => La w g ∨ Lb w g) := by
  intro s m
  simp only [List.mem_append, ha s m, hb s m]
  tauto

theorem spec_group {a : List Char → List Match} {La : List Char → List (List Char) → Prop}
    (ha : Describes a La) :
    Describes (fun s => (a s).map fun m => { m with groups := m.consumed :: m.groups })
      (fun w g => ∃ g', La w g' ∧ g = w :: g') := by
  intro s m
  simp only [List.mem_map]
  constructor
  · rintro ⟨m1, hm1, rfl⟩
    obtain ⟨h1, hs1⟩ := (ha s m1).mp hm1
    exact ⟨⟨_, h1, rfl⟩, hs1⟩
  · rintro ⟨⟨g', h1, hg⟩, hs⟩
    refine ⟨⟨m.consumed, g', m.rest⟩, (ha s _).mpr ⟨h1, hs⟩, ?_⟩
    rcases m with ⟨w, g, r⟩
    simp only at hg
    simp only [hg]

theorem spec_congr {f : List Char → List Match} {L L' : List Char → List (List Char) → Prop}
    (h : Describes f L) (hL : ∀ w g, L w g ↔ L' w g) : Describes f L' := by
  intro s m
  rw [h s m, hL]

theorem spec_greedy (p : Char → Bool) : ∀ hi lo : Nat,
    Describes (greedy (matchChar p) lo hi)
      (fun w g => w.all p = true ∧ lo ≤ w.length ∧ w.length ≤ hi ∧ g = []) := by
  intro hi
  induction hi with
  | zero =>
    intro lo s m
    rcases m with ⟨w, g, r⟩
    by_cases hlo : lo = 0
    · simp only [greedy, hlo, if_true, List.mem_singleton, Match.mk.injEq]
      constructor
      · rintro ⟨rfl, rfl, rfl⟩
        simp
      · rintro ⟨⟨-, -, hw, hg⟩, hs⟩
        have hw0 : w = [] := List.length_eq_zero.mp (by omega)
        subst hw0 hg
        exact ⟨rfl, rfl, by simpa using hs.symm⟩
    · simp only [greedy, hlo, if_false, List.not_mem_nil, false_iff]
      rintro ⟨⟨-, h1, h2, -⟩, -⟩
      omega
  | succ hi ih =>
    intro lo s m
    have hseq := spec_andThen (spec_matchChar p) (ih (lo - 1)) s m
    simp only [greedy, List.mem_append, hseq]
    rcases m with ⟨w, g, r⟩
    simp only
    constructor
    · rintro (⟨⟨wa, ga, wb, gb, ⟨c, hc, rfl, rfl⟩, ⟨hall, h1, h2, rfl⟩, rfl, rfl⟩, hs⟩ | hm)
      · refine ⟨⟨?_, ?_, ?_, rfl⟩, hs⟩
        · simp [hc, hall]
        · simp; omega
        · simp; omega
      · by_cases hlo : lo = 0
        · simp only [hlo, if_true, List.mem_singleton, Match.mk.injEq] at hm
          obtain ⟨rfl, rfl, rfl⟩ := hm
          simp [hlo]
        · simp only [hlo, if_false, List.not_mem_nil] at hm
    · rintro ⟨⟨hall, h1, h2, rfl⟩, hs⟩
      cases w with
      | nil =>
        right
        have hlo : lo = 0 := by simpa using h1
        simp only [List.nil_append] at hs
        simp [hlo, hs]
      | cons c wb =>
        left
        simp only [List.all_cons, Bool.and_eq_true] at hall
        simp only [List.length_cons] at h1 h2
        exact ⟨⟨[c], [], wb, [], ⟨c, hall.1, rfl, rfl⟩, ⟨hall.2, by omega, by omega, rfl⟩,
          rfl, rfl⟩, hs⟩

theorem mem_lazyRounds (p : Char → Bool) : ∀ (n : Nat) (s : List Char) (m : Match),
    m ∈ lazyRounds (matchChar p) n s ↔
      (m.consumed.all p = true ∧ m.consumed.length ≤ n ∧ m.groups = []) ∧
        s = m.consumed ++ m.rest := by
  intro n
  induction n with
  | zero =>
    intro s m
    rcases m with ⟨w, g, r⟩
    simp only [lazyRounds, List.mem_singleton, Match.mk.injEq]
    constructor
    · rintro ⟨rfl, rfl, rfl⟩
      simp
    · rintro ⟨⟨-, hw, hg⟩, hs⟩
      have hw0 : w = [] := List.length_eq_zero.mp (by omega)
      subst hw0 hg
      exact ⟨rfl, rfl, by simpa using hs.symm⟩
  | succ n ih =>
    intro s m
    have hspec : Describes (lazyRounds (matchChar p) n)
        (fun w g => w.all p = true ∧ w.length ≤ n ∧ g = []) := fun s m => ih s m
    have hseq := spec_andThen (spec_matchChar p) hspec s m
    simp only [lazyRounds, List.mem_cons, hseq]
    rcases m with ⟨w, g, r⟩
    simp only
    constructor
    · rintro (hm | ⟨⟨wa, ga, wb, gb, ⟨c, hc, rfl, rfl⟩, ⟨hall, h1, rfl⟩, rfl, rfl⟩, hs⟩)
      · simp only [Match.mk.injEq] at hm
        obtain ⟨rfl, rfl, rfl⟩ := hm
        simp
      · refine ⟨⟨?_, ?_, rfl⟩, hs⟩
        · simp [hc, hall]
        · simp; omega
    · rintro ⟨⟨hall, h1, rfl⟩, hs⟩
      cases w with
      | nil =>
        left
        simp only [List.nil_append] at hs
        simp [hs]
      | cons c wb =>
        right
        simp only [List.all_cons, Bool.and_eq_true] at hall
        simp only [List.length_cons] at h1
        exact ⟨⟨[c], [], wb, [], ⟨c, hall.1, rfl, rfl⟩, ⟨hall.2, by omega, rfl⟩, rfl, rfl⟩, hs⟩

theorem spec_lazyStar (p : Char → Bool) :
    Describes (fun s => lazyRounds (matchChar p) s.length s)
      (fun w g => w.all p = true ∧ g = []) := by
  intro s m
  rw [mem_lazyRounds]
  constructor
  · rintro ⟨⟨h1, -, h3⟩, hs⟩
    exact ⟨⟨h1, h3⟩, hs⟩
  · rintro ⟨⟨h1, h3⟩, hs⟩
    refine ⟨⟨h1, ?_, h3⟩, hs⟩
    rw [hs]
    simp

theorem spec_litThen (c : Char) {b : List Char → List Match}
    {Lb : List Char → List (List Char) → Prop} (hb : Describes b Lb) :
    Describes (fun s => andThen (matchChar (fun x => x == c) s) b)
      (fun w g => ∃ w', Lb w' g ∧ w = c :: w') := by
  refine spec_congr (spec_andThen (spec_matchChar _) hb) ?_
  intro w g
  constructor
  · rintro ⟨_, _, wb, gb, ⟨x, hx, rfl, rfl⟩, hb', rfl, rfl⟩
    have hxc : x = c := by simpa using hx
    subst hxc
    exact ⟨wb, hb', rfl⟩
  · rintro ⟨w', hb', rfl⟩
    exact ⟨[c], [], w', g, ⟨c, by simp, rfl, rfl⟩, hb', rfl, rfl⟩

theorem spec_groupThen {a b : List Char → List Match} {P : List Char → Prop}
    {Lb : List Char → List (List Char) → Prop}
    (ha : Describes a (fun w g => P w ∧ g = [])) (hb : Describes b Lb) :
    Describes (fun s => andThen ((a s).map fun m => { m with groups := m.consumed :: m.groups }) b)
      (fun w g => ∃ wa wb gb, P wa ∧ Lb wb gb ∧ w = wa ++ wb ∧ g = wa :: gb) := by
  refine spec_congr (spec_andThen (spec_group ha) hb) ?_
  intro w g
  constructor
  · rintro ⟨wa, _, wb, gb, ⟨_, ⟨hP, rfl⟩, rfl⟩, hb', rfl, rfl⟩
    exact ⟨wa, wb, gb, hP, hb', rfl, rfl⟩
  · rintro ⟨wa, wb, gb, hP, hb', rfl, rfl⟩
    exact ⟨wa, [wa], wb, gb, ⟨[], ⟨hP, rfl⟩, rfl⟩, hb', rfl, rfl⟩

theorem spec_stop :
    Describes (Re.group (Re.alt (Re.lit '1')
        (Re.alt (Re.seq (Re.lit '1') (Re.seq Re.dot (Re.lit '5'))) (Re.lit '2')))).run
      (fun w g => StopShape w ∧ g = [w]) := by
  have h := spec_group (spec_alt (spec_matchChar (fun x => x == '1'))
    (spec_alt (spec_litThen '1'
      (spec_andThen (spec_matchChar (fun x => x != '\n')) (spec_matchChar (fun x => x == '5'))))
      (spec_matchChar (fun x => x == '2'))))
  refine spec_congr h ?_
  intro w g
  constructor
  · rintro ⟨_, (⟨c, hc, rfl, rfl⟩ | ⟨_, ⟨_, _, _, _, ⟨x, hx, rfl, rfl⟩, ⟨y, hy, rfl, rfl⟩,
      rfl, rfl⟩, rfl⟩ | ⟨c, hc, rfl, rfl⟩), rfl⟩
    · have : c = '1' := by simpa using hc
      subst this
      exact ⟨Or.inl rfl, rfl⟩
    · have hy5 : y = '5' := by simpa using hy
      subst hy5
      exact ⟨Or.inr (Or.inl ⟨x, by simpa using hx, rfl⟩), rfl⟩
    · have : c = '2' := by simpa using hc
      subst this
      exact ⟨Or.inr (Or.inr rfl), rfl⟩
  · rintro ⟨(rfl | ⟨x, hx, rfl⟩ | rfl), rfl⟩
    · exact ⟨[], Or.inl ⟨'1', by simp, rfl, rfl⟩, rfl⟩
    · exact ⟨[], Or.inr (Or.inl ⟨[x, '5'], ⟨[x], [], ['5'], [],
        ⟨x, by simpa using hx, rfl, rfl⟩, ⟨'5', by simp, rfl, rfl⟩, rfl, rfl⟩, rfl⟩), rfl⟩
    · exact ⟨[], Or.inr (Or.inr ⟨'2', by simp, rfl, rfl⟩), rfl⟩

theorem spec_regPattern : Describes regPattern.run Parsed := by
  have hcls : ∀ p : Char → Bool,
      Describes (matchChar p) (fun w g => (∃ c, p c = true ∧ w = [c]) ∧ g = []) := by
    intro p
    refine spec_congr (spec_matchChar p) ?_
    intro w g
    constructor
    · rintro ⟨c, hc, rfl, rfl⟩
      exact ⟨⟨c, hc, rfl⟩, rfl⟩
    · rintro ⟨⟨c, hc, rfl⟩, rfl⟩
      exact ⟨c, hc, rfl, rfl⟩
  have hbaud : Describes (greedy (matchChar Char.isDigit) 3 7)
      (fun w g => isBaud w = true ∧ g = []) := by
    refine spec_congr (spec_greedy Char.isDigit 7 3) ?_
    intro w g
    simp only [isBaud, Bool.and_eq_true, decide_eq_true_eq]
    tauto
  have hall := spec_groupThen (spec_lazyStar (fun x => x != '\n'))
    (spec_litThen ',' (spec_groupThen hbaud
      (spec_litThen ',' (spec_groupThen
        (hcls (fun x => ['n', 'e', 'o', 'm', 's', 'N', 'E', 'O', 'M', 'S'].contains x))
        (spec_litThen ',' (spec_groupThen (hcls (fun x => ['5', '6', '7', '8'].contains x))
          (spec_litThen ',' spec_stop)))))))
  refine spec_congr hall ?_
  intro w g
  constructor
  · rintro ⟨port, _, _, hport, ⟨_, ⟨baud, _, _, hbd, ⟨_, ⟨_, _, _, ⟨par, hpar, rfl⟩,
      ⟨_, ⟨_, _, _, ⟨db, hdb, rfl⟩, ⟨sb, ⟨hsb, rfl⟩, rfl⟩, rfl, rfl⟩, rfl⟩, rfl, rfl⟩, rfl⟩,
      rfl, rfl⟩, rfl⟩, rfl, rfl⟩
    refine ⟨port, baud, par, db, sb, ?_, hbd, ?_, ?_, hsb, rfl, rfl⟩
    · intro hmem
      have := List.all_eq_true.mp hport _ hmem
      simp at this
    · simpa using hpar
    · simpa using hdb
  · rintro ⟨port, baud, par, db, sb, hport, hbd, hpar, hdb, hsb, rfl, rfl⟩
    refine ⟨port, _, _, ?_, ⟨_, ⟨baud, _, _, hbd, ⟨_, ⟨_, _, _, ⟨par, ?_, rfl⟩,
      ⟨_, ⟨_, _, _, ⟨db, ?_, rfl⟩, ⟨sb, ⟨hsb, rfl⟩, rfl⟩, rfl, rfl⟩, rfl⟩, rfl, rfl⟩, rfl⟩,
      rfl, rfl⟩, rfl⟩, rfl, rfl⟩
    · rw [List.all_eq_true]
      intro x hx
      have : x ≠ '\n' := fun h => hport (h ▸ hx)
      simpa using this
    · simpa using hpar
    · simpa using hdb

theorem split_last_comma {a a' b b' : List Char} (hb : ',' ∉ b) (hb' : ',' ∉ b')
    (h : a ++ ',' :: b = a' ++ ',' :: b') : a = a' ∧ b = b' := by
  rcases List.append_eq_append_iff.mp h with ⟨c, h1, h2⟩ | ⟨c, h1, h2⟩
  · cases c with
    | nil => simp at h1 h2; exact ⟨h1.symm, h2⟩
    | cons x c =>
      exfalso
      simp only [List.cons_append, List.cons.injEq] at h2
      apply hb
      rw [h2.2]
      simp
  · cases c with
    | nil => simp at h1 h2; exact ⟨h1, h2.symm⟩
    | cons x c =>
      exfalso
      simp only [List.cons_append, List.cons.injEq] at h2
      apply hb'
      rw [h2.2]
      simp

theorem optionText_inj {p b r d s p' b' r' d' s' : List Char}
    (hb : ',' ∉ b) (hr : ',' ∉ r) (hd : ',' ∉ d) (hs : ',' ∉ s)
    (hb' : ',' ∉ b') (hr' : ',' ∉ r') (hd' : ',' ∉ d') (hs' : ',' ∉ s')
    (h : optionText p b r d s = optionText p' b' r' d' s') :
    p = p' ∧ b = b' ∧ r = r' ∧ d = d' ∧ s = s' := by
  have e : ∀ p b r d s : List Char,
      optionText p b r d s = (((p ++ ',' :: b) ++ ',' :: r) ++ ',' :: d) ++ ',' :: s := by
    intro p b r d s
    simp [optionText]
  rw [e, e] at h
  obtain ⟨h1, h5⟩ := split_last_comma hs hs' h
  obtain ⟨h2, h4⟩ := split_last_comma hd hd' h1
  obtain ⟨h3, h3'⟩ := split_last_comma hr hr' h2
  obtain ⟨h0, h0'⟩ := split_last_comma hb hb' h3
  exact ⟨h0, h0', h3', h4, h5⟩

theorem isDigit_toNat {c : Char} (h : c.isDigit = true) : 48 ≤ c.toNat ∧ c.toNat ≤ 57 := by
  simp only [Char.isDigit, Bool.and_eq_true, decide_eq_true_eq] at h
  have h1 : (48 : UInt32) ≤ c.val := h.1
  have h2 : c.val ≤ (57 : UInt32) := h.2
  rw [UInt32.le_def] at h1 h2
  exact ⟨h1, h2⟩

theorem comma_not_mem_of_digits {b : List Char} (h : b.all Char.isDigit = true) : ',' ∉ b := by
  intro hm
  have := List.all_eq_true.mp h _ hm
  simp at this

theorem decimalValue_cons (c : Char) (rest : List Char) :
    decimalValue (c :: rest) = decimalValue rest + 10 ^ rest.length * (c.toNat - 48) := by
  simp only [decimalValue, List.reverse_cons, List.map_append, List.map_cons, List.map_nil,
      Nat.ofDigits_append, Nat.ofDigits_singleton, List.length_map, List.length_reverse]

theorem atoiLoop_cons (n : Nat) (c : Char) (rest : List Char) :
    atoiLoop n (c :: rest) = atoiLoop (n * 10 + (c.toNat - 48)) rest := rfl

theorem atoiLoop_eq (ds : List Char) :
    ∀ n, atoiLoop n ds = n * 10 ^ ds.length + decimalValue ds := by
  induction ds with
  | nil =>
    intro n
    show n = n * 10 ^ 0 + Nat.ofDigits 10 []
    simp
  | cons c rest ih =>
    intro n
    refine (atoiLoop_cons n c rest).trans ?_
    refine (ih _).trans ?_
    rw [decimalValue_cons, List.length_cons]
    ring

theorem decimalValue_lt {ds : List Char} (hd : ds.all Char.isDigit = true) :
    decimalValue ds < 10 ^ ds.length := by
  have h := Nat.ofDigits_lt_base_pow_length (b := 10)
    (l := ds.reverse.map (fun c => c.toNat - 48)) (by norm_num) (by
      intro x hx
      obtain ⟨c, hc, rfl⟩ := List.mem_map.mp hx
      have := isDigit_toNat (List.all_eq_true.mp hd c (List.mem_reverse.mp hc))
      omega)
  simpa [decimalValue] using h

theorem Atoi_digits {ds : List Char} (hd : ds.all Char.isDigit = true) (hne : ds ≠ [])
    (hlen : ds.length ≤ 18) : Atoi ds = Except.ok (decimalValue ds : Int) := by
  obtain ⟨c, rest, rfl⟩ := List.exists_cons_of_ne_nil hne
  have hc : c.isDigit = true := List.all_eq_true.mp hd c (List.mem_cons_self _ _)
  have hm : c ≠ '-' := by
    rintro rfl
    revert hc
    decide
  have hp : c ≠ '+' := by
    rintro rfl
    revert hc
    decide
  have hlt : decimalValue (c :: rest) < 2 ^ 63 := by
    have h1 := decimalValue_lt hd
    have h2 : 10 ^ (c :: rest).length ≤ 10 ^ 18 := Nat.pow_le_pow_right (by norm_num) hlen
    have h3 : (10 : Nat) ^ 18 < 2 ^ 63 := by norm_num
    omega
  have hloop : atoiLoop 0 (c :: rest) = decimalValue (c :: rest) := by
    rw [atoiLoop_eq]
    simp
  unfold Atoi
  simp only [List.head?_cons, List.tail_cons]
  have e1 : (some c == some '-') = false := by simpa using hm
  have e2 : (some c == some '+') = false := by simpa using hp
  simp only [e1, e2, Bool.or_false, Bool.false_eq_true, if_false, List.isEmpty_cons, hd,
    Bool.not_true, hloop, hlt, if_true]

theorem toLower_eq_dot {x : Char} (h : x.toLower = '.') : x = '.' := by
  by_cases hr : 65 ≤ x.toNat ∧ x.toNat ≤ 90
  · exfalso
    have hx : x = Char.ofNat x.toNat := (Char.ofNat_toNat x).symm
    generalize x.toNat = n at hx hr
    obtain ⟨h1, h2⟩ := hr
    subst hx
    interval_cases n <;> revert h <;> decide
  · have hx : x.toLower = x := by
      unfold Char.toLower
      exact if_neg hr
    rwa [hx] at h

theorem switchStopBits_ToLower {s : List Char} (hs : StopShape s) :
    switchStopBits (ToLower s) = stopBitsOfText s := by
  rcases hs with rfl | ⟨x, _, rfl⟩ | rfl
  · rfl
  · by_cases hx : x = '.'
    · subst hx
      rfl
    · have hl : x.toLower ≠ '.' := fun h => hx (toLower_eq_dot h)
      have h1 : ToLower ['1', x, '5'] = ['1', x.toLower, '5'] := rfl
      rw [h1]
      simp [switchStopBits, stopBitsOfText, hx, hl]
  · rfl

theorem switchParity_ToLower {r : Char}
    (hr : r ∈ ['n', 'e', 'o', 'm', 's', 'N', 'E', 'O', 'M', 'S']) :
    ∃ parity, parityOfLetter r = some parity ∧ switchParity (ToLower [r]) = some parity := by
  simp only [List.mem_cons, List.mem_singleton, List.not_mem_nil, or_false] at hr
  rcases hr with rfl | rfl | rfl | rfl | rfl | rfl | rfl | rfl | rfl | rfl <;>
    exact ⟨_, rfl, rfl⟩

theorem Atoi_dataBits {d : Char} (hd : d ∈ ['5', '6', '7', '8']) :
    ∃ bits, dataBitsOfDigit d = some bits ∧ Atoi [d] = Except.ok bits := by
  simp only [List.mem_cons, List.mem_singleton, List.not_mem_nil, or_false] at hd
  rcases hd with rfl | rfl | rfl | rfl <;> exact ⟨_, rfl, rfl⟩

theorem isBaud_iff {b : List Char} :
    isBaud b = true ↔ b.all Char.isDigit = true ∧ 3 ≤ b.length ∧ b.length ≤ 7 := by
  simp only [isBaud, Bool.and_eq_true, decide_eq_true_eq]
  tauto

theorem Atoi_baud {b : List Char} (hb : isBaud b = true) :
    Atoi b = Except.ok (decimalValue b : Int) := by
  obtain ⟨h1, h2, h3⟩ := isBaud_iff.mp hb
  refine Atoi_digits h1 ?_ (by omega)
  rintro rfl
  simp at h2

theorem ParseSerialOptions_of_no_submatch {text : List Char}
    (h : FindStringSubmatch regPattern text = none) :
    ParseSerialOptions (String.mk text) =
      Except.error ("invalid serial port definition: " ++ String.mk text) := by
  have h' : FindStringSubmatch regPattern (String.mk text).data = none := h
  unfold ParseSerialOptions
  rw [h']

theorem ParseSerialOptions_of_submatch {text : List Char} {gs : List (List Char)}
    (h : FindStringSubmatch regPattern text = some gs) :
    ∃ (p b s : List Char) (r d : Char) (parity : Parity) (bits : Int),
      '\n' ∉ p ∧ isBaud b = true ∧ parityOfLetter r = some parity ∧
      r ∈ ['n', 'e', 'o', 'm', 's', 'N', 'E', 'O', 'M', 'S'] ∧
      dataBitsOfDigit d = some bits ∧ d ∈ ['5', '6', '7', '8'] ∧ StopShape s ∧
      text = optionText p b [r] [d] s ∧
      ParseSerialOptions (String.mk text) =
        match stopBitsOfText s with
        | some v => Except.ok (SerialOptions.mk (String.mk p) (decimalValue b) parity bits v)
        | none => Except.error ("invalid serial port definition: " ++ String.mk text) := by
  unfold FindStringSubmatch at h
  obtain ⟨m, hm, hgs⟩ := Option.map_eq_some'.mp h
  have hmem := List.mem_of_find?_eq_some hm
  have hrest := List.find?_some hm
  obtain ⟨hP, htext⟩ := (spec_regPattern text m).mp hmem
  have hr0 : m.rest = [] := by simpa using hrest
  rw [hr0, List.append_nil] at htext
  obtain ⟨p, b, r, d, s, hp, hb, hr, hd, hs, hw, hg⟩ := hP
  obtain ⟨parity, hpar1, hpar2⟩ := switchParity_ToLower hr
  obtain ⟨bits, hbits1, hbits2⟩ := Atoi_dataBits hd
  refine ⟨p, b, s, r, d, parity, bits, hp, hb, hpar1, hr, hbits1, hd, hs, htext.trans hw, ?_⟩
  have hfind : FindStringSubmatch regPattern (String.mk text).data =
      some [text, p, b, [r], [d], s] := by
    show FindStringSubmatch regPattern text = _
    unfold FindStringSubmatch
    rw [hm, Option.map_some', hg, ← htext]
  unfold ParseSerialOptions
  rw [hfind]
  simp only [List.getD_cons_zero, List.getD_cons_succ]
  rw [Atoi_baud hb]
  simp only []
  rw [hpar2]
  simp only []
  rw [hbits2]
  simp only []
  rw [switchStopBits_ToLower hs]
  cases stopBitsOfText s <;> rfl

theorem submatch_of_Parsed {text : List Char} {g : List (List Char)} (h : Parsed text g) :
    ∃ gs, FindStringSubmatch regPattern text = some gs := by
  have hmem : Match.mk text g [] ∈ regPattern.run text :=
    (spec_regPattern text (Match.mk text g [])).mpr ⟨h, by simp⟩
  unfold FindStringSubmatch
  cases hf : (regPattern.run text).find? (fun m => m.rest.isEmpty) with
  | some m => exact ⟨_, rfl⟩
  | none =>
    exfalso
    have := List.find?_eq_none.mp hf _ hmem
    simp at this

theorem comma_not_mem_letter {r : Char}
    (hr : r ∈ ['n', 'e', 'o', 'm', 's', 'N', 'E', 'O', 'M', 'S']) : ',' ∉ [r] := by
  intro h
  have : r = ',' := (List.mem_singleton.mp h).symm
  subst this
  revert hr
  decide

theorem comma_not_mem_databit {d : Char} (hd : d ∈ ['5', '6', '7', '8']) : ',' ∉ [d] := by
  intro h
  have : d = ',' := (List.mem_singleton.mp h).symm
  subst this
  revert hd
  decide

theorem comma_not_mem_stop {s : List Char} {v : StopBits} (h : stopBitsOfText s = some v) :
    ',' ∉ s := by
  unfold stopBitsOfText at h
  split_ifs at h with h1 h2 h3
  · rw [h1]; decide
  · rw [h2]; decide
  · rw [h3]; decide

theorem optionText_stop_comma (p b r d : List Char) :
    optionText p b r d ['1', ',', '5'] = optionText (p ++ ',' :: b) r d ['1'] ['5'] := by
  simp [optionText]

/-- C8. For every text `PORT,BAUD,PARITY,DATABITS,STOPBITS` in which PORT has no
line feed (it may be empty and may hold commas), BAUD is 3 to 7 decimal digits,
PARITY is a letter that names a parity in either case, DATABITS is one of the
digits 5 to 8 and STOPBITS is `1`, `1.5` or `2`, `ParseSerialOptions` succeeds
and returns exactly PORT, the number BAUD denotes, the parity the letter names,
the number of data bits and the stop-bit setting STOPBITS names. -/
theorem ParseSerialOptions_accepts_valid (port baud stop : List Char) (par db : Char)
    (parity : Parity) (dataBits : Int) (stopBits : StopBits)
    (hport : '\n' ∉ port) (hbaud : isBaud baud = true)
    (hpar : parityOfLetter par = some parity) (hdb : dataBitsOfDigit db = some dataBits)
    (hstop : stopBitsOfText stop = some stopBits) :
    ParseSerialOptions (String.mk (optionText port baud [par] [db] stop)) =
      Except.ok (SerialOptions.mk (String.mk port) (decimalValue baud) parity dataBits
        stopBits) := by
  have hparmem : par ∈ ['n', 'e', 'o', 'm', 's', 'N', 'E', 'O', 'M', 'S'] := by
    unfold parityOfLetter at hpar
    split at hpar <;> first | decide | exact absurd hpar (by simp)
  have hdbmem : db ∈ ['5', '6', '7', '8'] := by
    unfold dataBitsOfDigit at hdb
    split at hdb <;> first | decide | exact absurd hdb (by simp)
  have hshape : StopShape stop := by
    unfold stopBitsOfText at hstop
    split_ifs at hstop with h1 h2 h3
    · exact Or.inl h1
    · exact Or.inr (Or.inl ⟨'.', by decide, h2⟩)
    · exact Or.inr (Or.inr h3)
  obtain ⟨gs, hgs⟩ := submatch_of_Parsed (g := [port, baud, [par], [db], stop])
    ⟨port, baud, par, db, stop, hport, hbaud, hparmem, hdbmem, hshape, rfl, rfl⟩
  obtain ⟨p, b, s, r, d, parity', bits, -, hb, hpar', hr, hbits, hd, hs, htext, hres⟩ :=
    ParseSerialOptions_of_submatch hgs
  have hcb := comma_not_mem_of_digits (isBaud_iff.mp hbaud).1
  have hcb' := comma_not_mem_of_digits (isBaud_iff.mp hb).1
  have hcs := comma_not_mem_stop hstop
  by_cases hsc : s = ['1', ',', '5']
  · exfalso
    rw [hsc, optionText_stop_comma] at htext
    have h5 := (optionText_inj hcb (comma_not_mem_letter hparmem) (comma_not_mem_databit hdbmem)
      hcs (comma_not_mem_letter hr) (comma_not_mem_databit hd)
      (show ',' ∉ ['1'] by decide) (show ',' ∉ ['5'] by decide) htext).2.2.2.2
    have h0 : stopBitsOfText ['5'] = none := by decide
    rw [h5, h0] at hstop
    cases hstop
  · have hcs' : ',' ∉ s := by
      rcases hs with rfl | ⟨x, _, rfl⟩ | rfl
      · decide
      · intro hm
        apply hsc
        have hx : x = ',' := by
          simp only [List.mem_cons, List.mem_singleton, List.not_mem_nil, or_false] at hm
          rcases hm with hm | hm | hm
          · exact absurd hm (by decide)
          · exact hm.symm
          · exact absurd hm (by decide)
        rw [hx]
      · decide
    obtain ⟨e1, e2, e3, e4, e5⟩ := optionText_inj hcb (comma_not_mem_letter hparmem)
      (comma_not_mem_databit hdbmem) hcs hcb' (comma_not_mem_letter hr)
      (comma_not_mem_databit hd) hcs' htext
    have e3' : par = r := by simpa using e3
    have e4' : db = d := by simpa using e4
    subst e1 e2 e3' e4' e5
    rw [hpar] at hpar'
    rw [hdb] at hbits
    cases hpar'
    cases hbits
    rw [hres, hstop]

/-- The text `COM5,19200,N,8,1` parses to port `COM5`, baud 19200, no parity, 8
data bits, 1 stop bit. -/
theorem ParseSerialOptions_accepts_valid_witness :
    ('\n' ∉ "COM5".data ∧ isBaud "19200".data = true ∧
      parityOfLetter 'N' = some Parity.NoParity ∧ dataBitsOfDigit '8' = some 8 ∧
      stopBitsOfText "1".data = some StopBits.OneStopBit) ∧
    ParseSerialOptions "COM5,19200,N,8,1" =
      Except.ok (SerialOptions.mk "COM5" 19200 Parity.NoParity 8 StopBits.OneStopBit) :=
  ⟨⟨by decide, by decide, rfl, rfl, by decide⟩,
    ParseSerialOptions_accepts_valid "COM5".data "19200".data "1".data 'N' '8'
      Parity.NoParity 8 StopBits.OneStopBit (by decide) (by decide) rfl rfl (by decide)⟩

/-- C9. Read the last four comma-separated fields of a text as BAUD, PARITY,
DATABITS, STOPBITS (what stands before them is PORT). If BAUD is not 3 to 7
decimal digits, or PARITY is not a single letter that names a parity, or
STOPBITS is not exactly `1`, `1.5` or `2` (so also for `1x5`), then
`ParseSerialOptions` fails and its error message contains the input text. -/
theorem ParseSerialOptions_rejects_invalid (port baud par db stop : List Char)
    (hb : ',' ∉ baud) (hp : ',' ∉ par) (hd : ',' ∉ db) (hs : ',' ∉ stop)
    (hbad : isBaud baud = false ∨ (∀ c, par = [c] → parityOfLetter c = none) ∨
      stopBitsOfText stop = none) :
    ∃ msg, ParseSerialOptions (String.mk (optionText port baud par db stop)) =
        Except.error msg ∧
      containsText msg (String.mk (optionText port baud par db stop)) := by
  cases hf : FindStringSubmatch regPattern (optionText port baud par db stop) with
  | none => exact ⟨_, ParseSerialOptions_of_no_submatch hf, containsText_end _ _⟩
  | some gs =>
    obtain ⟨p, b, s, r, d, parity, bits, -, hb', hpar, hr, -, hd', -, htext, hres⟩ :=
      ParseSerialOptions_of_submatch hf
    cases hv : stopBitsOfText s with
    | none =>
      rw [hv] at hres
      exact ⟨_, hres, containsText_end _ _⟩
    | some v =>
      exfalso
      obtain ⟨-, e2, e3, -, e5⟩ := optionText_inj hb hp hd hs
        (comma_not_mem_of_digits (isBaud_iff.mp hb').1) (comma_not_mem_letter hr)
        (comma_not_mem_databit hd') (comma_not_mem_stop hv) htext
      rcases hbad with h | h | h
      · rw [e2, hb'] at h
        cases h
      · rw [h r e3] at hpar
        cases hpar
      · rw [e5, hv] at h
        cases h

/-- The texts `COM5,19200,X,8,1` and `COM5,19200,N,8,1x5` fail to parse. -/
theorem ParseSerialOptions_rejects_invalid_witness :
    (',' ∉ "19200".data ∧ ',' ∉ "X".data ∧ ',' ∉ "8".data ∧ ',' ∉ "1".data ∧
      (isBaud "19200".data = false ∨ (∀ c, "X".data = [c] → parityOfLetter c = none) ∨
        stopBitsOfText "1".data = none)) ∧
    (∃ msg, ParseSerialOptions "COM5,19200,X,8,1" = Except.error msg ∧
      containsText msg "COM5,19200,X,8,1") ∧
    (∃ msg, ParseSerialOptions "COM5,19200,N,8,1x5" = Except.error msg ∧
      containsText msg "COM5,19200,N,8,1x5") :=
  have hX : ∀ c, "X".data = [c] → parityOfLetter c = none := fun c hc => by
    cases hc
    rfl
  ⟨⟨by decide, by decide, by decide, by decide, Or.inr (Or.inl hX)⟩,
    ParseSerialOptions_rejects_invalid "COM5".data "19200".data "X".data "8".data "1".data
      (by decide) (by decide) (by decide) (by decide) (Or.inr (Or.inl hX)),
    ParseSerialOptions_rejects_invalid "COM5".data "19200".data "N".data "8".data "1x5".data
      (by decide) (by decide) (by decide) (by decide) (Or.inr (Or.inr (by decide)))⟩

end SerialProxy
